import Mathlib

/-!
Verification of the Forkline core subsystem (canonicalization, JSON diff,
redaction, first-divergence engine, replay guardrails) against its
natural-language specification.

The Python source is shallowly embedded:
* Python JSON-like values become the mutually inductive types
  `JVal`/`JList`/`JObj` (mappings are insertion-ordered association
  structures, as Python dicts are).  Finite floats are carried as
  rationals (`fFin q`), with the IEEE-754 special points NaN, +inf, -inf
  and -0.0 as separate constructors; `float(f"{v:.17g}")` is the identity
  on binary64 doubles and is modelled as the identity on the finite
  constructors.
* Host functions whose bit-level behaviour is irrelevant to the claims
  (NFC normalisation, SHA-256, Python float `repr`) are abstracted as
  parameters, bundled in `CanonOracle`; every theorem quantifies over
  them.
* Python recursion that descends through dictionary lookups (`json_diff`,
  `deep_compare`) is modelled with an explicit fuel parameter; the public
  wrappers instantiate the fuel with the term size, which strictly bounds
  the recursion depth, so the fuel never runs out on the wrapper's calls.
* Mutable state (`contextvars`, replay cursors) is threaded explicitly.
-/

namespace Forkline

mutual
/-- The canonical value domain of §3: null, booleans, integers, floats
(finite, NaN, ±infinity, and the distinguished -0.0), strings, byte
sequences, sequences, and string-keyed mappings. -/
inductive JVal where
  | null
  | boolean (b : Bool)
  | intg (n : Int)
  | fNaN
  | fInf
  | fNegInf
  | fNegZero
  | fFin (q : ℚ)
  | str (s : String)
  | byt (bs : List Nat)
  | arr (xs : JList)
  | obj (kvs : JObj)
/-- A Python list of canonical values. -/
inductive JList where
  | nil
  | cons (hd : JVal) (tl : JList)
/-- A Python dict with string keys, in insertion order. -/
inductive JObj where
  | nil
  | cons (k : String) (v : JVal) (tl : JObj)
end

/-- View a `JList` as a Lean list. -/
def JList.toList : JList → List JVal
  | .nil => []
  | .cons hd tl => hd :: tl.toList

/-- Build a `JList` from a Lean list. -/
def JList.ofList : List JVal → JList
  | [] => .nil
  | x :: xs => .cons x (JList.ofList xs)

/-- View a `JObj` as a Lean association list. -/
def JObj.toList : JObj → List (String × JVal)
  | .nil => []
  | .cons k v tl => (k, v) :: tl.toList

/-- Build a `JObj` from a Lean association list. -/
def JObj.ofList : List (String × JVal) → JObj
  | [] => .nil
  | kv :: kvs => .cons kv.1 kv.2 (JObj.ofList kvs)

mutual
/-- Size of a value; strictly bounds the depth of every Python recursion
over the value, and is used to instantiate fuel parameters. -/
def JVal.size : JVal → Nat
  | .arr xs => xs.size + 1
  | .obj kvs => kvs.size + 1
  | _ => 1
/-- Size of a list of values. -/
def JList.size : JList → Nat
  | .nil => 1
  | .cons hd tl => hd.size + tl.size + 1
/-- Size of a mapping. -/
def JObj.size : JObj → Nat
  | .nil => 1
  | .cons _ v tl => v.size + tl.size + 1
end

/-- Output type of `canon`: either UTF-8 text (strings and JSON renderings;
UTF-8 encoding is injective so the text itself is kept) or raw bytes, which
`canon` passes through unchanged. -/
inductive CanonBytes where
  | text (s : String)
  | raw (bs : List Nat)
deriving DecidableEq

/-- Host primitives abstracted from the embedding:
`unicodedata.normalize("NFC", ·)`, Python float `repr` (on the rational
value of a finite double), and `hashlib.sha256(·).hexdigest()`.  Every
theorem quantifies over an arbitrary oracle, so nothing proved depends on
their concrete behaviour. -/
structure CanonOracle where
  nfc : String → String
  frepr : ℚ → String
  shaHex : CanonBytes → String

/-- Left-to-right, non-overlapping replacement of CRLF by LF
(`s.replace("\r\n", "\n")`). -/
def replaceCRLF : List Char → List Char
  | '\r' :: '\n' :: rest => '\n' :: replaceCRLF rest
  | c :: rest => c :: replaceCRLF rest
  | [] => []

/-- Replacement of every remaining CR by LF (`s.replace("\r", "\n")`). -/
def replaceCR : List Char → List Char
  | '\r' :: rest => '\n' :: replaceCR rest
  | c :: rest => c :: replaceCR rest
  | [] => []

/-- `_canon_str`: NFC-normalise, then collapse CRLF and CR to LF. -/
def canonStr (O : CanonOracle) (s : String) : String :=
  String.mk (replaceCR (replaceCRLF (O.nfc s).data))

/-- Lexicographic code-point comparison of character lists; this is how
Python compares `str` values (and Lean's `String` order agrees, but this
explicit form computes inside the kernel). -/
def charListLe : List Char → List Char → Bool
  | [], _ => true
  | _ :: _, [] => false
  | a :: as, b :: bs =>
    if a.toNat < b.toNat then true
    else if b.toNat < a.toNat then false
    else charListLe as bs

/-- Python's `<=` on strings: lexicographic by code point. -/
def strLe (a b : String) : Bool := charListLe a.data b.data

/-- Insert an element into a sorted list, before the first element it
compares `le` to; together with `sortBy` this is a stable ascending sort,
extensionally equal to Python's stable `sorted`. -/
def insertSorted (le : α → α → Bool) (x : α) : List α → List α
  | [] => [x]
  | y :: ys => if le x y then x :: y :: ys else y :: insertSorted le x ys

/-- Stable insertion sort, modelling Python's `sorted` with a key-based
comparator. -/
def sortBy (le : α → α → Bool) : List α → List α
  | [] => []
  | x :: xs => insertSorted le x (sortBy le xs)

/-- Key comparator used for `sorted(value.items(), key=lambda x: str(x[0]))`
and for `json.dumps(..., sort_keys=True)`: compare entries by string key
(Python compares `str` by code points, as Lean's `String` order does). -/
def keyLe (a b : String × JVal) : Bool := strLe a.1 b.1

/-- Stable sort of a mapping's entries by key.  Python sorts the entries
and then normalises each value; the embedding normalises first and sorts
afterwards, which yields the same mapping because the stable sort compares
only keys and normalisation keeps every key. -/
def sortObj (kvs : JObj) : JObj :=
  JObj.ofList (sortBy keyLe kvs.toList)

/-- The canonical form of a byte-sequence leaf:
`{"__bytes__": True, "sha256": sha256_hex(value), "length": len(value)}`. -/
def bytesEnvelope (O : CanonOracle) (bs : List Nat) : JVal :=
  .obj (.cons "__bytes__" (.boolean true)
    (.cons "sha256" (.str (O.shaHex (.raw bs)))
      (.cons "length" (.intg bs.length) .nil)))

mutual
/-- `_normalize_value`.  The finite-float branch models
`float(f"{value:.17g}")` (the identity on binary64 doubles) followed by
the `normalized == 0.0` fold, which sends `-0.0` to `0.0`. -/
def normV (O : CanonOracle) : JVal → JVal
  | .null => .null
  | .boolean b => .boolean b
  | .intg n => .intg n
  | .fNaN => .str "NaN"
  | .fInf => .str "Infinity"
  | .fNegInf => .str "-Infinity"
  | .fNegZero => .fFin 0
  | .fFin q => .fFin q
  | .str s => .str (canonStr O s)
  | .byt bs => bytesEnvelope O bs
  | .arr xs => .arr (normL O xs)
  | .obj kvs => .obj (sortObj (normO O kvs))
/-- `_normalize_value` mapped over a list. -/
def normL (O : CanonOracle) : JList → JList
  | .nil => .nil
  | .cons hd tl => .cons (normV O hd) (normL O tl)
/-- `_normalize_value` mapped over a mapping's values (`str(k)` is the
identity on the string keys of the canonical domain). -/
def normO (O : CanonOracle) : JObj → JObj
  | .nil => .nil
  | .cons k v tl => .cons k (normV O v) (normO O tl)
end

/-- JSON string escaping as performed by `json.dumps` with
`ensure_ascii=False`: escape the quote, the backslash, the common control
characters, and the other code points below 0x20 as `\u00XX`. -/
def jescChar (c : Char) : List Char :=
  let bslash : Char := Char.ofNat 92
  let dquote : Char := Char.ofNat 34
  if c = dquote then [bslash, dquote]
  else if c = bslash then [bslash, bslash]
  else if c = '\n' then [bslash, 'n']
  else if c = '\r' then [bslash, 'r']
  else if c = '\t' then [bslash, 't']
  else if c = Char.ofNat 8 then [bslash, 'b']
  else if c = Char.ofNat 12 then [bslash, 'f']
  else if c.toNat < 32 then
    let ds := Nat.toDigits 16 c.toNat
    [bslash, 'u'] ++ List.replicate (4 - ds.length) '0' ++ ds
  else [c]

/-- Render a JSON string literal (double-quoted, escaped). -/
def jstr (s : String) : String :=
  let dquote : Char := Char.ofNat 34
  String.mk (dquote :: (s.data.flatMap jescChar) ++ [dquote])

/-- Comma-join rendered fragments (the `separators=(",", ":")` compact
profile). -/
def joinComma : List String → String
  | [] => ""
  | [x] => x
  | x :: rest => x ++ "," ++ joinComma rest

/-- Stable sort of rendered object entries by key; because the comparator
looks only at the key, sorting the entries after rendering their values
equals `json.dumps`'s sorting of the keys before rendering. -/
def sortRendered (entries : List (String × String)) : List (String × String) :=
  sortBy (fun a b => strLe a.1 b.1) entries

mutual
/-- `json.dumps(value, sort_keys=True, ensure_ascii=False,
separators=(",", ":"))` on a normalised value.  The non-finite floats are
unreachable here (normalisation replaced them by strings) and rendered by
their `repr` sentinels; byte leaves are likewise unreachable (normalisation
replaced them by their envelope). -/
def jdumpV (O : CanonOracle) : JVal → String
  | .null => "null"
  | .boolean b => if b then "true" else "false"
  | .intg n => toString n
  | .fNaN => "nan"
  | .fInf => "inf"
  | .fNegInf => "-inf"
  | .fNegZero => O.frepr 0
  | .fFin q => O.frepr q
  | .str s => jstr s
  | .byt _ => ""
  | .arr xs => "[" ++ joinComma (jdumpL O xs) ++ "]"
  | .obj kvs =>
      "\x7b" ++
        joinComma ((sortRendered (jdumpO O kvs)).map
          (fun kv => jstr kv.1 ++ ":" ++ kv.2)) ++
      "\x7d"
/-- Render each element of a list. -/
def jdumpL (O : CanonOracle) : JList → List String
  | .nil => []
  | .cons hd tl => jdumpV O hd :: jdumpL O tl
/-- Render each value of a mapping, keeping the keys. -/
def jdumpO (O : CanonOracle) : JObj → List (String × String)
  | .nil => []
  | .cons k v tl => (k, jdumpV O v) :: jdumpO O tl
end

/-- `_canon_json`: normalise, then dump compactly with sorted keys. -/
def canonJson (O : CanonOracle) (v : JVal) : String :=
  jdumpV O (normV O v)

/-- `canon(value)`: bytes pass through; strings are NFC/newline normalised;
everything else is rendered as canonical JSON. -/
def canon (O : CanonOracle) : JVal → CanonBytes
  | .byt bs => .raw bs
  | .str s => .text (canonStr O s)
  | .null => .text (canonJson O .null)
  | .boolean b => .text (canonJson O (.boolean b))
  | .intg n => .text (canonJson O (.intg n))
  | .fNaN => .text (canonJson O .fNaN)
  | .fInf => .text (canonJson O .fInf)
  | .fNegInf => .text (canonJson O .fNegInf)
  | .fNegZero => .text (canonJson O .fNegZero)
  | .fFin q => .text (canonJson O (.fFin q))
  | .arr xs => .text (canonJson O (.arr xs))
  | .obj kvs => .text (canonJson O (.obj kvs))

/-! ## JSON-patch differ (`core/json_diff.py`) -/

/-- Python's runtime type of a value, as observed by `type(x)`;
note that `bool` is its own type, distinct from `int`. -/
inductive PyTy where
  | noneTy
  | boolTy
  | intTy
  | floatTy
  | strTy
  | bytesTy
  | listTy
  | dictTy
deriving DecidableEq

/-- `type(v)`. -/
def pyTypeOf : JVal → PyTy
  | .null => .noneTy
  | .boolean _ => .boolTy
  | .intg _ => .intTy
  | .fNaN | .fInf | .fNegInf | .fNegZero | .fFin _ => .floatTy
  | .str _ => .strTy
  | .byt _ => .bytesTy
  | .arr _ => .listTy
  | .obj _ => .dictTy

/-- `isinstance(v, (int, float))`.  In Python `bool` is a subclass of
`int`, so booleans count as numbers here. -/
def isNumInst : JVal → Bool
  | .boolean _ | .intg _ | .fNaN | .fInf | .fNegInf | .fNegZero | .fFin _ => true
  | _ => false

/-- Python numeric equality (`==`) between two numbers: booleans count as
0/1, NaN is unequal to everything including itself, each infinity equals
only itself, and the finite values compare exactly. -/
def pyNumEq : JVal → JVal → Bool
  | .fNaN, _ => false
  | _, .fNaN => false
  | .fInf, .fInf => true
  | .fInf, _ => false
  | _, .fInf => false
  | .fNegInf, .fNegInf => true
  | .fNegInf, _ => false
  | _, .fNegInf => false
  | a, b => numQ a == numQ b
where
  /-- The exact rational value of a boolean, integer, or finite float. -/
  numQ : JVal → ℚ
  | .boolean b => if b then 1 else 0
  | .intg n => (n : ℚ)
  | .fFin q => q
  | _ => 0

/-- Python `==` on two values of the same runtime primitive type
(the only place `json_diff` and `deep_compare` compare non-container
values directly). -/
def pyPrimEq : JVal → JVal → Bool
  | .null, .null => true
  | .str a, .str b => a == b
  | .byt a, .byt b => a == b
  | a, b => if isNumInst a && isNumInst b then pyNumEq a b else false

/-- One JSON-patch operation, as emitted by `json_diff`. -/
inductive DiffOp where
  | remove (path : String) (old : JVal)
  | add (path : String) (value : JVal)
  | replace (path : String) (old new : JVal)

/-- `sorted(a - b)` on key sets: the keys of `a` not in `b`, deduplicated
and sorted ascending by code point. -/
def sortedSetDiff (a b : List String) : List String :=
  sortBy strLe ((a.filter (fun k => ¬ b.contains k)).dedup)

/-- `sorted(a & b)` on key sets. -/
def sortedSetInter (a b : List String) : List String :=
  sortBy strLe ((a.filter (fun k => b.contains k)).dedup)

/-- `d[k]` on an association list with the key known to be present
(Python dicts have unique keys; the `.null` default is unreachable on the
keys this is called with). -/
def dictGet (kvs : List (String × JVal)) (k : String) : JVal :=
  match kvs.lookup k with
  | some v => v
  | none => .null

/-- `xs[i]` with the index known to be in range. -/
def listGet (xs : List JVal) (i : Nat) : JVal := (xs.get? i).getD .null

/-- `$.a.b[3]`-style path extension for a dict key. -/
def pathKey (path k : String) : String := path ++ "." ++ k

/-- Path extension for a list index. -/
def pathIdx (path : String) (i : Nat) : String :=
  path ++ "[" ++ toString i ++ "]"

/-- `json_diff(old, new, path)` with explicit fuel for the recursion into
containers. -/
def jsonDiffF : Nat → JVal → JVal → String → List DiffOp
  | 0, _, _, _ => []
  | fuel + 1, old, new, path =>
    match old, new with
    | .null, .null => []
    | _, _ =>
      if pyTypeOf old = pyTypeOf new then
        match old, new with
        | .obj okvs, .obj nkvs =>
          let o := okvs.toList
          let n := nkvs.toList
          let okeys := o.map Prod.fst
          let nkeys := n.map Prod.fst
          ((sortedSetDiff okeys nkeys).map
            (fun k => DiffOp.remove (pathKey path k) (dictGet o k))) ++
          ((sortedSetDiff nkeys okeys).map
            (fun k => DiffOp.add (pathKey path k) (dictGet n k))) ++
          ((sortedSetInter okeys nkeys).flatMap
            (fun k => jsonDiffF fuel (dictGet o k) (dictGet n k) (pathKey path k)))
        | .arr oxs, .arr nxs =>
          let o := oxs.toList
          let n := nxs.toList
          let minLen := min o.length n.length
          ((List.range minLen).flatMap
            (fun i => jsonDiffF fuel (listGet o i) (listGet n i) (pathIdx path i))) ++
          (if n.length < o.length then
            (List.range' n.length (o.length - n.length)).map
              (fun i => DiffOp.remove (pathIdx path i) (listGet o i))
          else if o.length < n.length then
            (List.range' o.length (n.length - o.length)).map
              (fun i => DiffOp.add (pathIdx path i) (listGet n i))
          else [])
        | _, _ => if pyPrimEq old new then [] else [.replace path old new]
      else
        if isNumInst old && isNumInst new then
          if pyNumEq old new then [] else [.replace path old new]
        else [.replace path old new]

/-- `json_diff(old, new, path)`; the fuel `size old + size new` strictly
bounds the recursion depth (every recursive call strictly shrinks the sum
of the two sizes). -/
def json_diff (old new : JVal) (path : String) : List DiffOp :=
  jsonDiffF (old.size + new.size) old new path

/-! ## Redaction engine (`core/redaction.py`) -/

/-- `RedactionAction`: what to do when a rule matches. -/
inductive RedactionAction where
  | mask
  | hash
  | drop
deriving DecidableEq

/-- `RedactionRule`: an action plus optional key and path patterns
(construction rejects rules with neither pattern; see
`RedactionRule.wellFormed`). -/
structure RedactionRule where
  action : RedactionAction
  key_pattern : Option String
  path_pattern : Option String
deriving DecidableEq

/-- The `__post_init__` validation: at least one pattern must be present. -/
def RedactionRule.wellFormed (r : RedactionRule) : Bool :=
  r.key_pattern.isSome || r.path_pattern.isSome

/-- `RedactionPolicy`: an ordered list of rules, first match wins. -/
structure RedactionPolicy where
  rules : List RedactionRule

/-- Python's `str.lower()`, modelled per character (agreeing with Python
on ASCII, which is all the committed policy uses). -/
def strLower (s : String) : String := String.mk (s.data.map Char.toLower)

/-- Python's `needle in hay` on strings: contiguous substring test. -/
def containsSub (needle hay : List Char) : Bool :=
  (List.range (hay.length + 1)).any (fun i => needle.isPrefixOf (hay.drop i))

/-- Case-insensitive substring match: `pattern.lower() in s.lower()`. -/
def substrCI (pat s : String) : Bool :=
  containsSub (strLower pat).data (strLower s).data

/-- The match predicate of `_find_matching_rule`: an absent pattern
matches anything; a present pattern must be a case-insensitive substring
of the key (resp. the dot-path). -/
def ruleMatches (r : RedactionRule) (key path : String) : Bool :=
  (match r.key_pattern with
   | none => true
   | some p => substrCI p key) &&
  (match r.path_pattern with
   | none => true
   | some p => substrCI p path)

/-- `_find_matching_rule`: the first rule in order whose patterns both
match, if any. -/
def findMatchingRule (rules : List RedactionRule) (key path : String) :
    Option RedactionRule :=
  rules.find? (fun r => ruleMatches r key path)

mutual
/-- `_redact_value`: dicts are redacted per key, lists element-wise,
primitives pass through.  `hashOracle` abstracts `_hash_value`'s
`sha256(repr(value))` digest; the `"hash:"` prefix is kept explicit. -/
def redactValue (P : RedactionPolicy) (hashOracle : JVal → String) :
    JVal → String → JVal
  | .obj kvs, path => .obj (redactDict P hashOracle kvs path)
  | .arr xs, path => .arr (redactList P hashOracle xs path)
  | v, _ => v
/-- `_redact_dict`: for each entry, find the first matching rule for
`(key, path.key)` and apply its action; without a match, recurse into the
value. -/
def redactDict (P : RedactionPolicy) (hashOracle : JVal → String) :
    JObj → String → JObj
  | .nil, _ => .nil
  | .cons k v tl, path =>
    let currentPath := if path = "" then k else path ++ "." ++ k
    match findMatchingRule P.rules k currentPath with
    | none => .cons k (redactValue P hashOracle v currentPath)
        (redactDict P hashOracle tl path)
    | some r =>
      match r.action with
      | .drop => redactDict P hashOracle tl path
      | .mask => .cons k (.str "[REDACTED]") (redactDict P hashOracle tl path)
      | .hash => .cons k (.str ("hash:" ++ hashOracle v))
          (redactDict P hashOracle tl path)
/-- `_redact_list`: element-wise, preserving order and the parent path. -/
def redactList (P : RedactionPolicy) (hashOracle : JVal → String) :
    JList → String → JList
  | .nil, _ => .nil
  | .cons hd tl, path =>
    .cons (redactValue P hashOracle hd path) (redactList P hashOracle tl path)
end

/-- `RedactionPolicy.redact(event_type, payload)`: deep-copy (the pure
embedding needs no copy; the input is a value and cannot be mutated) and
redact from the empty path.  `event_type` is accepted and unused, as in
the source. -/
def redact (P : RedactionPolicy) (hashOracle : JVal → String)
    (_eventType : String) (payload : JVal) : JVal :=
  redactValue P hashOracle payload ""

/-- `create_default_policy()`: the committed SAFE-mode mask rules, in
source order. -/
def createDefaultPolicy : RedactionPolicy :=
  ⟨[⟨.mask, some "key", none⟩,
    ⟨.mask, some "token", none⟩,
    ⟨.mask, some "secret", none⟩,
    ⟨.mask, some "password", none⟩,
    ⟨.mask, some "api_key", none⟩,
    ⟨.mask, some "apikey", none⟩,
    ⟨.mask, some "auth", none⟩,
    ⟨.mask, some "authorization", none⟩,
    ⟨.mask, some "cookie", none⟩,
    ⟨.mask, some "set-cookie", none⟩,
    ⟨.mask, some "credentials", none⟩,
    ⟨.mask, some "private_key", none⟩,
    ⟨.mask, some "privatekey", none⟩,
    ⟨.mask, some "access_token", none⟩,
    ⟨.mask, some "refresh_token", none⟩,
    ⟨.mask, some "session", none⟩,
    ⟨.mask, some "csrf", none⟩]⟩

/-! ## Data model (`core/types.py`) -/

/-- `Event`: one observation within a step. -/
structure Event where
  event_id : Option Int
  run_id : String
  step_idx : Nat
  type : String
  created_at : String
  payload : JVal

/-- `Step`: an ordered group of events sharing a name. -/
structure Step where
  step_id : Option Int
  run_id : String
  idx : Nat
  name : String
  started_at : String
  ended_at : Option String
  events : List Event

/-- `Run`: an ordered sequence of steps. -/
structure Run where
  run_id : String
  created_at : String
  steps : List Step
  forkline_version : Option String
  schema_version : Option String

/-- A placeholder step used as the (unreachable) default of in-range list
indexing. -/
def Step.dummy : Step := ⟨none, "", 0, "", "", none, []⟩

/-- `steps[i]` with the index known to be in range. -/
def stepAt (steps : List Step) (i : Nat) : Step := (steps.get? i).getD Step.dummy

/-! ## First-divergence engine (`core/first_divergence.py`) -/

/-- `DivergenceType.EXACT_MATCH`. -/
def DivergenceType.EXACT_MATCH : String := "exact_match"
/-- `DivergenceType.INPUT_DIVERGENCE`. -/
def DivergenceType.INPUT_DIVERGENCE : String := "input_divergence"
/-- `DivergenceType.OUTPUT_DIVERGENCE`. -/
def DivergenceType.OUTPUT_DIVERGENCE : String := "output_divergence"
/-- `DivergenceType.OP_DIVERGENCE`. -/
def DivergenceType.OP_DIVERGENCE : String := "op_divergence"
/-- `DivergenceType.MISSING_STEPS`. -/
def DivergenceType.MISSING_STEPS : String := "missing_steps"
/-- `DivergenceType.EXTRA_STEPS`. -/
def DivergenceType.EXTRA_STEPS : String := "extra_steps"
/-- `DivergenceType.ERROR_DIVERGENCE`. -/
def DivergenceType.ERROR_DIVERGENCE : String := "error_divergence"

/-- `StepSummary`: compact summary of a step for diff results. -/
structure StepSummary where
  idx : Nat
  name : String
  input_hash : String
  output_hash : String
  event_count : Nat
  has_error : Bool

/-- `FirstDivergenceResult`: the full result record of
`find_first_divergence`. -/
structure FirstDivergenceResult where
  status : String
  idx_a : Option Nat
  idx_b : Option Nat
  explanation : String
  old_step : Option StepSummary
  new_step : Option StepSummary
  input_diff : Option (List DiffOp)
  output_diff : Option (List DiffOp)
  last_equal_idx : Int
  context_a : List StepSummary
  context_b : List StepSummary

/-- `_step_events_by_type`: payloads of the step's events of one type,
in order. -/
def stepEventsByType (s : Step) (eventType : String) : List JVal :=
  (s.events.filter (fun e => e.type == eventType)).map (fun e => e.payload)

/-- `_step_input_hash`: `sha256_hex(canon(input payloads))`. -/
def stepInputHash (O : CanonOracle) (s : Step) : String :=
  O.shaHex (canon O (.arr (JList.ofList (stepEventsByType s "input"))))

/-- `_step_output_hash`: `sha256_hex(canon(output payloads))`. -/
def stepOutputHash (O : CanonOracle) (s : Step) : String :=
  O.shaHex (canon O (.arr (JList.ofList (stepEventsByType s "output"))))

/-- `_step_has_error`. -/
def stepHasError (s : Step) : Bool := s.events.any (fun e => e.type == "error")

/-- `_step_signature`: the soft resync signature `(name, input_hash)`. -/
def stepSignature (O : CanonOracle) (s : Step) : String × String :=
  (s.name, stepInputHash O s)

/-- `_make_summary`. -/
def makeSummary (O : CanonOracle) (s : Step) : StepSummary :=
  ⟨s.idx, s.name, stepInputHash O s, stepOutputHash O s, s.events.length,
    stepHasError s⟩

/-- `_get_context`: summaries of `steps[max(0, center-size) : min(len, center+size+1)]`. -/
def getContext (O : CanonOracle) (steps : List Step) (center size : Nat) :
    List StepSummary :=
  ((steps.take (min steps.length (center + size + 1))).drop (center - size)).map
    (makeSummary O)

/-- A Python tuple `(e.type, e.payload)` as a canonical value
(`_normalize_value` treats tuples as sequences). -/
def eventPair (e : Event) : JVal :=
  .arr (.cons (.str e.type) (.cons e.payload .nil))

/-- `_classify_step_divergence`: priority classification of one step pair:
name, then input hash, then error presence/payload, then output hash, then
a full-event fallback; otherwise exact match. -/
def classifyStepDivergence (O : CanonOracle) (a b : Step) : String :=
  if a.name ≠ b.name then DivergenceType.OP_DIVERGENCE
  else if stepInputHash O a ≠ stepInputHash O b then
    DivergenceType.INPUT_DIVERGENCE
  else if stepHasError a ≠ stepHasError b then DivergenceType.ERROR_DIVERGENCE
  else if stepHasError a ∧ stepHasError b ∧
      canon O (.arr (JList.ofList (stepEventsByType a "error"))) ≠
        canon O (.arr (JList.ofList (stepEventsByType b "error"))) then
    DivergenceType.ERROR_DIVERGENCE
  else if stepOutputHash O a ≠ stepOutputHash O b then
    DivergenceType.OUTPUT_DIVERGENCE
  else if canon O (.arr (JList.ofList (a.events.map eventPair))) ≠
      canon O (.arr (JList.ofList (b.events.map eventPair))) then
    DivergenceType.OUTPUT_DIVERGENCE
  else DivergenceType.EXACT_MATCH

/-- One probe of `_try_resync`'s inner loop body: at combined distance
`totalDist` and offset `offsetA` into run A, skip when `offset_b` falls
outside the window or either index is out of range, and answer the pair of
absolute indices when the step signatures agree. -/
def tryResyncCell (O : CanonOracle) (stepsA stepsB : List Step)
    (start window totalDist offsetA : Nat) : Option (Nat × Nat) :=
  let offsetB := totalDist - offsetA
  if offsetB ≥ window then none
  else
    let ia := start + offsetA
    let ib := start + offsetB
    if ia ≥ stepsA.length ∨ ib ≥ stepsB.length then none
    else if stepSignature O (stepAt stepsA ia) =
        stepSignature O (stepAt stepsB ib) then some (ia, ib)
    else none

/-- `_try_resync`'s inner loop: offsets into run A in increasing order,
`offset_a ∈ range(min(total_dist + 1, window))`. -/
def tryResyncRow (O : CanonOracle) (stepsA stepsB : List Step)
    (start window totalDist : Nat) : Option (Nat × Nat) :=
  (List.range (min (totalDist + 1) window)).findSome?
    (tryResyncCell O stepsA stepsB start window totalDist)

/-- `_try_resync`: scan combined distances `1 .. 2*window` in increasing
order and, within each, offsets into run A in increasing order; return the
first (absolute-index) pair whose step signatures agree.  The first hit
therefore minimises `(offset_a + offset_b, offset_a)` lexicographically. -/
def tryResync (O : CanonOracle) (stepsA stepsB : List Step)
    (start window : Nat) : Option (Nat × Nat) :=
  (List.range' 1 (2 * window)).findSome?
    (tryResyncRow O stepsA stepsB start window)

/-- A single ASCII apostrophe, used verbatim in explanation templates. -/
def sq : String := String.singleton (Char.ofNat 39)

/-- `str(x)` for the optional indices interpolated into explanations. -/
def fmtOptNat : Option Nat → String
  | some n => toString n
  | none => "None"

/-- `_make_explanation`: the deterministic one-line template per status.
In the `missing_steps`/`extra_steps` arithmetic the index is an `int` at
every call site; the `getD 0` default is unreachable. -/
def makeExplanation (dtype : String) (stepA stepB : Option Step)
    (idxA idxB : Option Nat) (gapA gapB : Nat) : String :=
  if dtype = DivergenceType.EXACT_MATCH then "Runs are identical"
  else if dtype = DivergenceType.OP_DIVERGENCE then
    let nameA := (stepA.map Step.name).getD "?"
    let nameB := (stepB.map Step.name).getD "?"
    "Step " ++ fmtOptNat idxA ++ ": operation mismatch (" ++ sq ++ nameA ++ sq ++
      " vs " ++ sq ++ nameB ++ sq ++ ")"
  else if dtype = DivergenceType.INPUT_DIVERGENCE then
    "Step " ++ fmtOptNat idxA ++ " " ++ sq ++ (stepA.map Step.name).getD "?" ++ sq ++
      ": input differs"
  else if dtype = DivergenceType.OUTPUT_DIVERGENCE then
    "Step " ++ fmtOptNat idxA ++ " " ++ sq ++ (stepA.map Step.name).getD "?" ++ sq ++
      ": output differs (same input)"
  else if dtype = DivergenceType.ERROR_DIVERGENCE then
    "Step " ++ fmtOptNat idxA ++ " " ++ sq ++ (stepA.map Step.name).getD "?" ++ sq ++
      ": error state differs"
  else if dtype = DivergenceType.MISSING_STEPS then
    if 1 < gapA then
      "Steps " ++ fmtOptNat idxA ++ ".." ++ toString (idxA.getD 0 + gapA - 1) ++
        " from run_a missing in run_b"
    else "Step " ++ fmtOptNat idxA ++ " from run_a missing in run_b"
  else if dtype = DivergenceType.EXTRA_STEPS then
    if 1 < gapB then
      "Steps " ++ fmtOptNat idxB ++ ".." ++ toString (idxB.getD 0 + gapB - 1) ++
        " in run_b not present in run_a"
    else "Step " ++ fmtOptNat idxB ++ " in run_b not present in run_a"
  else
    "Unknown divergence at indices (" ++ fmtOptNat idxA ++ ", " ++
      fmtOptNat idxB ++ ")"

/-- `_compute_diffs`: the structured input/output diffs, gated by the
status and the `show` parameter. -/
def computeDiffs (stepA stepB : Option Step) (dtype shw : String) :
    Option (List DiffOp) × Option (List DiffOp) :=
  match stepA, stepB with
  | some a, some b =>
    let inputDiff :=
      if dtype = DivergenceType.INPUT_DIVERGENCE ∧ (shw = "input" ∨ shw = "both")
      then some (json_diff (.arr (JList.ofList (stepEventsByType a "input")))
        (.arr (JList.ofList (stepEventsByType b "input"))) "$")
      else none
    let outputDiff :=
      if dtype = DivergenceType.OUTPUT_DIVERGENCE ∧ (shw = "output" ∨ shw = "both")
      then some (json_diff (.arr (JList.ofList (stepEventsByType a "output")))
        (.arr (JList.ofList (stepEventsByType b "output"))) "$")
      else none
    (inputDiff, outputDiff)
  | _, _ => (none, none)

/-- The mismatch branch of `find_first_divergence`'s lockstep loop: attempt
a resync; a pure gap on one side reports `missing_steps`/`extra_steps`, a
two-sided gap or a failed resync falls through to the step-local
classification at the current index. -/
def ffdMismatch (O : CanonOracle) (stepsA stepsB : List Step)
    (window ctxSize : Nat) (shw : String) (i : Nat) (lastEqual : Int)
    (dtype : String) : FirstDivergenceResult :=
  let classified : FirstDivergenceResult :=
    let diffs := computeDiffs (some (stepAt stepsA i)) (some (stepAt stepsB i))
      dtype shw
    ⟨dtype, some i, some i,
      makeExplanation dtype (some (stepAt stepsA i)) (some (stepAt stepsB i))
        (some i) (some i) 0 0,
      some (makeSummary O (stepAt stepsA i)), some (makeSummary O (stepAt stepsB i)),
      diffs.1, diffs.2, lastEqual,
      getContext O stepsA i ctxSize, getContext O stepsB i ctxSize⟩
  match tryResync O stepsA stepsB i window with
  | some (ia, ib) =>
    let gapA := ia - i
    let gapB := ib - i
    if 0 < gapA ∧ gapB = 0 then
      ⟨DivergenceType.MISSING_STEPS, some i, some i,
        makeExplanation DivergenceType.MISSING_STEPS (some (stepAt stepsA i))
          (some (stepAt stepsB i)) (some i) (some i) gapA 0,
        some (makeSummary O (stepAt stepsA i)), some (makeSummary O (stepAt stepsB i)),
        none, none, lastEqual,
        getContext O stepsA i ctxSize, getContext O stepsB i ctxSize⟩
    else if 0 < gapB ∧ gapA = 0 then
      ⟨DivergenceType.EXTRA_STEPS, some i, some i,
        makeExplanation DivergenceType.EXTRA_STEPS (some (stepAt stepsA i))
          (some (stepAt stepsB i)) (some i) (some i) 0 gapB,
        some (makeSummary O (stepAt stepsA i)), some (makeSummary O (stepAt stepsB i)),
        none, none, lastEqual,
        getContext O stepsA i ctxSize, getContext O stepsB i ctxSize⟩
    else classified
  | none => classified

/-- The post-loop tail of `find_first_divergence`: a longer run reports its
unmatched tail; equal lengths report `exact_match`. -/
def ffdTail (O : CanonOracle) (stepsA stepsB : List Step) (ctxSize : Nat)
    (lastEqual : Int) : FirstDivergenceResult :=
  if stepsB.length < stepsA.length then
    let idx := stepsB.length
    let gap := stepsA.length - stepsB.length
    ⟨DivergenceType.MISSING_STEPS, some idx, none,
      makeExplanation DivergenceType.MISSING_STEPS (some (stepAt stepsA idx)) none
        (some idx) none gap 0,
      some (makeSummary O (stepAt stepsA idx)), none, none, none, lastEqual,
      getContext O stepsA idx ctxSize,
      if stepsB.isEmpty then [] else getContext O stepsB (stepsB.length - 1) ctxSize⟩
  else if stepsA.length < stepsB.length then
    let idx := stepsA.length
    let gap := stepsB.length - stepsA.length
    ⟨DivergenceType.EXTRA_STEPS, none, some idx,
      makeExplanation DivergenceType.EXTRA_STEPS none (some (stepAt stepsB idx))
        none (some idx) 0 gap,
      none, some (makeSummary O (stepAt stepsB idx)), none, none, lastEqual,
      if stepsA.isEmpty then [] else getContext O stepsA (stepsA.length - 1) ctxSize,
      getContext O stepsB idx ctxSize⟩
  else
    ⟨DivergenceType.EXACT_MATCH, none, none,
      "Runs are identical (" ++ toString stepsA.length ++ " steps compared)",
      none, none, none, none, lastEqual, [], []⟩

/-- The lockstep `while` loop of `find_first_divergence`, with the number
of remaining iterations as fuel (`min |a| |b| - i`, maintained by the
wrapper, so the zero-fuel branch is reached exactly when the loop
condition fails). -/
def ffdLoop (O : CanonOracle) (stepsA stepsB : List Step)
    (window ctxSize : Nat) (shw : String) :
    Nat → Nat → Int → FirstDivergenceResult
  | 0, _, lastEqual => ffdTail O stepsA stepsB ctxSize lastEqual
  | fuel + 1, i, lastEqual =>
    if i < stepsA.length ∧ i < stepsB.length then
      let dtype := classifyStepDivergence O (stepAt stepsA i) (stepAt stepsB i)
      if dtype = DivergenceType.EXACT_MATCH then
        ffdLoop O stepsA stepsB window ctxSize shw fuel (i + 1) i
      else ffdMismatch O stepsA stepsB window ctxSize shw i lastEqual dtype
    else ffdTail O stepsA stepsB ctxSize lastEqual

/-- `find_first_divergence(run_a, run_b, window, context_size, show)`. -/
def find_first_divergence (O : CanonOracle) (runA runB : Run)
    (window ctxSize : Nat) (shw : String) : FirstDivergenceResult :=
  ffdLoop O runA.steps runB.steps window ctxSize shw
    (min runA.steps.length runB.steps.length) 0 (-1)

/-! ## Replay mode, guardrails, comparator and engine (`core/replay.py`) -/

/-- The two replay-mode context variables (`_replay_mode_active`,
`_replay_run_id`), with their declared defaults `False` and `None`. -/
structure RMode where
  active : Bool
  runId : Option String
deriving DecidableEq

/-- The state of the context variables outside any `replay_mode` scope. -/
def RMode.initial : RMode := ⟨false, none⟩

/-- `is_replay_mode_active()`. -/
def isReplayModeActive (st : RMode) : Bool := st.active

/-- `get_replay_run_id()`: the run id only while replay mode is active. -/
def getReplayRunId (st : RMode) : Option String :=
  if isReplayModeActive st then st.runId else none

/-- `DeterminismViolationError` with its carried fields. -/
structure DeterminismViolationError where
  message : String
  step_idx : Int
  expected : String
  actual : String
  violation_type : String
deriving DecidableEq

/-- Python's `run_id or "unknown"`: `None` and the empty string (both
falsy) become `"unknown"`. -/
def orUnknown : Option String → String
  | some s => if s = "" then "unknown" else s
  | none => "unknown"

/-- The guard's message template. -/
def guardMessage (operation runId : String) : String :=
  "Live " ++ operation ++ " attempted during replay of run " ++ sq ++ runId ++
    sq ++ ". Replay mode forbids live calls to ensure determinism. " ++
    "Use recorded artifacts instead."

/-- `assert_not_in_replay_mode(operation)`: raises a
`DeterminismViolationError` iff the ambient replay-mode flag is set. -/
def assertNotInReplayMode (operation : String) (st : RMode) :
    Except DeterminismViolationError Unit :=
  if isReplayModeActive st then
    .error ⟨guardMessage operation (orUnknown (getReplayRunId st)), -1,
      "<recorded artifact>", "<live " ++ operation ++ ">",
      "live_call_during_replay"⟩
  else .ok ()

/-- `guard_live_call(operation)`: alias for `assert_not_in_replay_mode`. -/
def guardLiveCall (operation : String) (st : RMode) :
    Except DeterminismViolationError Unit :=
  assertNotInReplayMode operation st

/-- The `replay_mode(run_id)` context manager: set both context variables
(remembering their previous values as reset tokens), run the body, and
restore the saved values on every exit path — also when the body leaves
with an exception, which is re-raised after the restore. -/
def replayModeScope (runId : Option String)
    (body : RMode → Except ε α × RMode) (st : RMode) : Except ε α × RMode :=
  let tokenActive := st.active
  let tokenRunId := st.runId
  let r := body ⟨true, runId⟩
  (r.1, ⟨tokenActive, tokenRunId⟩)

/-- `FieldDiff`: one differing field; `expected`/`actual` are `Any` in the
source (values, `type:`/`<missing>` sentinels, or lengths), embedded as
canonical values. -/
structure FieldDiff where
  path : String
  expected : JVal
  actual : JVal

/-- `type(x).__name__` for the type-mismatch sentinel of `deep_compare`. -/
def pyTyName : PyTy → String
  | .noneTy => "NoneType"
  | .boolTy => "bool"
  | .intTy => "int"
  | .floatTy => "float"
  | .strTy => "str"
  | .bytesTy => "bytes"
  | .listTy => "list"
  | .dictTy => "dict"

/-- `path or "(root)"`. -/
def pathOrRoot (path : String) : String := if path = "" then "(root)" else path

/-- `sorted(set(a) | set(b))` on key lists. -/
def sortedSetUnion (a b : List String) : List String :=
  sortBy strLe ((a ++ b).dedup)

/-- `deep_compare(expected, actual, path, ignore_fields)` with explicit
fuel for the recursion into containers: type mismatch is a single
sentinel diff; dicts walk the sorted union of keys with `<missing>`
sentinels; lists report a `(length)` diff and recurse into the common
prefix; primitives compare by Python `==`. -/
def deepCompareF : Nat → JVal → JVal → String → List String → List FieldDiff
  | 0, _, _, _, _ => []
  | fuel + 1, expected, actual, path, ignoreFields =>
    if pyTypeOf expected ≠ pyTypeOf actual then
      [⟨pathOrRoot path, .str ("type:" ++ pyTyName (pyTypeOf expected)),
        .str ("type:" ++ pyTyName (pyTypeOf actual))⟩]
    else
      match expected, actual with
      | .obj ekvs, .obj akvs =>
        let e := ekvs.toList
        let a := akvs.toList
        (sortedSetUnion (e.map Prod.fst) (a.map Prod.fst)).flatMap (fun k =>
          if ignoreFields.contains k then []
          else
            let childPath := if path = "" then k else path ++ "." ++ k
            if ¬ (e.map Prod.fst).contains k then
              [⟨childPath, .str "<missing>", dictGet a k⟩]
            else if ¬ (a.map Prod.fst).contains k then
              [⟨childPath, dictGet e k, .str "<missing>"⟩]
            else deepCompareF fuel (dictGet e k) (dictGet a k) childPath
              ignoreFields)
      | .arr exs, .arr axs =>
        let e := exs.toList
        let a := axs.toList
        (if e.length ≠ a.length then
          [⟨(if path = "" then "(length)" else path ++ ".(length)"),
            .intg e.length, .intg a.length⟩]
        else []) ++
        (List.range (min e.length a.length)).flatMap (fun i =>
          deepCompareF fuel (listGet e i) (listGet a i)
            (path ++ "[" ++ toString i ++ "]") ignoreFields)
      | _, _ =>
        if pyPrimEq expected actual then []
        else [⟨pathOrRoot path, expected, actual⟩]

/-- `deep_compare`; as with `json_diff`, the fuel `size + size` strictly
bounds the recursion depth. -/
def deep_compare (expected actual : JVal) (path : String)
    (ignoreFields : List String) : List FieldDiff :=
  deepCompareF (expected.size + actual.size) expected actual path ignoreFields

/-- `compare_events(expected, actual, ignore_timestamps)`: a `type` diff
when the event types differ, then the payload diffs under path
`"payload"`, ignoring `created_at`/`ts`/`timestamp` by default. -/
def compareEvents (expected actual : Event) (ignoreTimestamps : Bool) :
    List FieldDiff :=
  (if expected.type ≠ actual.type then
    [⟨"type", .str expected.type, .str actual.type⟩]
  else []) ++
  deep_compare expected.payload actual.payload "payload"
    (if ignoreTimestamps then ["created_at", "ts", "timestamp"] else [])

/-- `DivergencePoint`: the structured divergence record used by the replay
engine. -/
structure DivergencePoint where
  step_idx : Nat
  step_name : String
  event_idx : Option Nat
  divergence_type : String
  field_diffs : List FieldDiff
  context : List (String × JVal)

/-- The event loop of `compare_steps`: compare zipped events in order and
halt at the first one with diffs. -/
def compareStepEvents (stepIdx : Nat) (stepName : String)
    (ignoreTimestamps : Bool) : Nat → List (Event × Event) →
    Bool × Option DivergencePoint
  | _, [] => (true, none)
  | eventIdx, (e, a) :: rest =>
    let eventDiffs := compareEvents e a ignoreTimestamps
    if eventDiffs.isEmpty then
      compareStepEvents stepIdx stepName ignoreTimestamps (eventIdx + 1) rest
    else
      (false, some ⟨stepIdx, stepName, some eventIdx, "event_payload_mismatch",
        eventDiffs,
        [("expected_event_type", .str e.type),
         ("actual_event_type", .str a.type)]⟩)

/-- `compare_steps(expected, actual, ignore_timestamps)`: name, then event
count (with event-type context), then the first event-level divergence. -/
def compareSteps (expected actual : Step) (ignoreTimestamps : Bool) :
    Bool × Option DivergencePoint :=
  if expected.name ≠ actual.name then
    (false, some ⟨expected.idx, expected.name, none, "step_name_mismatch",
      [⟨"name", .str expected.name, .str actual.name⟩], []⟩)
  else if expected.events.length ≠ actual.events.length then
    (false, some ⟨expected.idx, expected.name, none, "event_count_mismatch",
      [⟨"events.(length)", .intg expected.events.length,
        .intg actual.events.length⟩],
      [("expected_event_types",
         .arr (JList.ofList (expected.events.map (fun e => .str e.type)))),
       ("actual_event_types",
         .arr (JList.ofList (actual.events.map (fun e => .str e.type))))]⟩)
  else
    compareStepEvents expected.idx expected.name ignoreTimestamps 0
      (expected.events.zip actual.events)

/-- `ReplayPolicy`. -/
structure ReplayPolicy where
  ignore_timestamps : Bool
  strict_event_order : Bool
  fail_on_missing_artifact : Bool
  compare_tool_outputs : Bool
  compare_llm_outputs : Bool

/-- `ReplayPolicy.default()`. -/
def ReplayPolicy.defaultPolicy : ReplayPolicy := ⟨true, true, true, true, true⟩

/-- `ReplayStatus`. -/
inductive ReplayStatus where
  | matched
  | diverged
  | incomplete
  | error
  | originalNotFound
  | replayNotFound
deriving DecidableEq

/-- `ReplayStepResult`. -/
structure ReplayStepResult where
  step_idx : Nat
  step_name : String
  events_compared : Nat
  matched : Bool
  divergence : Option DivergencePoint

/-- `ReplayResult`. -/
structure ReplayResult where
  original_run_id : String
  replay_run_id : String
  status : ReplayStatus
  steps_compared : Nat
  total_events_compared : Nat
  divergence : Option DivergencePoint
  step_results : List ReplayStepResult
  error_message : Option String

/-- The step loop of `_compare_loaded_runs`, over the zipped steps with
the running index, event total, and accumulated step results. -/
def clrLoop (original replay : Run) (ignoreTimestamps : Bool) :
    Nat → Nat → List ReplayStepResult → List (Step × Step) → ReplayResult
  | _, totalEvents, acc, [] =>
    if replay.steps.length < original.steps.length then
      ⟨original.run_id, replay.run_id, .incomplete, replay.steps.length,
        totalEvents, none, acc, none⟩
    else
      ⟨original.run_id, replay.run_id, .matched, acc.length, totalEvents, none,
        acc, none⟩
  | stepIdx, totalEvents, acc, (origStep, replayStep) :: rest =>
    let md := compareSteps origStep replayStep ignoreTimestamps
    let eventsInStep := min origStep.events.length replayStep.events.length
    let stepResult : ReplayStepResult :=
      ⟨stepIdx, origStep.name, eventsInStep, md.1, md.2⟩
    let acc2 := acc ++ [stepResult]
    if md.1 then
      clrLoop original replay ignoreTimestamps (stepIdx + 1)
        (totalEvents + origStep.events.length) acc2 rest
    else
      ⟨original.run_id, replay.run_id, .diverged, stepIdx + 1,
        totalEvents + ((md.2.bind DivergencePoint.event_idx).getD 0),
        md.2, acc2, none⟩

/-- `ReplayEngine._compare_loaded_runs(original, replay,
ignore_timestamps)`: a longer replay is reported as `extra_steps_in_replay`
before any step is compared; otherwise steps are compared in order, halting
at the first divergence; a shorter replay that matched so far is
`incomplete`. -/
def compareLoadedRuns (original replay : Run) (ignoreTimestamps : Bool) :
    ReplayResult :=
  let originalStepCount := original.steps.length
  let replayStepCount := replay.steps.length
  if originalStepCount < replayStepCount then
    ⟨original.run_id, replay.run_id, .diverged, 0, 0,
      some ⟨originalStepCount, "<beyond original>", none, "extra_steps_in_replay",
        [⟨"steps.(length)", .intg originalStepCount, .intg replayStepCount⟩], []⟩,
      [], none⟩
  else
    clrLoop original replay ignoreTimestamps 0 0 []
      (original.steps.zip replay.steps)

/-- A placeholder event used as the (unreachable) default of in-range list
indexing. -/
def Event.dummy : Event := ⟨none, "", 0, "", "", .null⟩

/-- `ReplayContext`: the recorded run plus the per-step event cursors
(`_event_cursors.get(step_idx, 0)` is a total map with default 0) and the
step cursor. -/
structure ReplayContext where
  run : Run
  stepCursor : Nat
  eventCursors : Nat → Nat

/-- `ReplayContext(run)`: fresh cursors. -/
def ReplayContext.init (run : Run) : ReplayContext := ⟨run, 0, fun _ => 0⟩

/-- `ReplayContext.get_step(step_idx)`. -/
def ReplayContext.getStep (ctx : ReplayContext) (stepIdx : Nat) : Option Step :=
  ctx.run.steps.get? stepIdx

/-- `ReplayOrderError`. -/
structure ReplayOrderError where
  message : String
deriving DecidableEq

/-- `ReplayContext.next_event(step_idx, expected_type)`: return the event
at the step's cursor and advance it; `None` past the end; raise
`ReplayOrderError` — before advancing — when `expected_type` is given and
differs from the event's type. -/
def ReplayContext.nextEvent (ctx : ReplayContext) (stepIdx : Nat)
    (expectedType : Option String) :
    Except ReplayOrderError (Option Event) × ReplayContext :=
  match ctx.getStep stepIdx with
  | none => (.ok none, ctx)
  | some step =>
    let cursor := ctx.eventCursors stepIdx
    if step.events.length ≤ cursor then (.ok none, ctx)
    else
      let event := (step.events.get? cursor).getD Event.dummy
      let failed : Bool :=
        match expectedType with
        | some t => event.type ≠ t
        | none => false
      if failed then
        (.error ⟨"Expected event type " ++ sq ++ (expectedType.getD "") ++ sq ++
          " at step[" ++ toString stepIdx ++ "]/event[" ++ toString cursor ++
          "], got " ++ sq ++ event.type ++ sq⟩, ctx)
      else
        (.ok (some event),
          { ctx with eventCursors :=
              fun j => if j = stepIdx then cursor + 1 else ctx.eventCursors j })

/-- `ReplayContext.peek_event(step_idx)`: the event at the cursor, without
advancing. -/
def ReplayContext.peekEvent (ctx : ReplayContext) (stepIdx : Nat) :
    Option Event :=
  match ctx.getStep stepIdx with
  | none => none
  | some step =>
    let cursor := ctx.eventCursors stepIdx
    if step.events.length ≤ cursor then none
    else (step.events.get? cursor).getD Event.dummy

/-- An executor passed to `ReplayEngine.replay`: a Python callable that
receives the recorded step and the replay context, may observe the ambient
replay-mode state and use or advance the context, and either returns the
replayed step (with the context it leaves behind) or raises — the raised
exception is embedded as its `str(e)` message. -/
def Executor : Type :=
  Step → ReplayContext → RMode → Except String (Step × ReplayContext)

/-- The step loop of `ReplayEngine._execute_replay`: call the executor on
each recorded step (threading the replay context and passing the engine's
ambient replay-mode state through unchanged — the source enters no
`replay_mode` scope here), turn an executor exception into an `ERROR`
result, compare recorded vs replayed step, and halt at the first
divergence. -/
def executeReplayLoop (recordedRun : Run) (replayRunId : String)
    (executor : Executor) (policy : ReplayPolicy) (amb : RMode) :
    Nat → Nat → List ReplayStepResult → ReplayContext → List Step →
    ReplayResult
  | _, totalEvents, acc, _, [] =>
    ⟨recordedRun.run_id, replayRunId, .matched, acc.length, totalEvents, none,
      acc, none⟩
  | stepIdx, totalEvents, acc, ctx, recordedStep :: rest =>
    match executor recordedStep ctx amb with
    | .error e =>
      ⟨recordedRun.run_id, replayRunId, .error, stepIdx, totalEvents, none, acc,
        some ("Executor failed at step " ++ toString stepIdx ++ ": " ++ e)⟩
    | .ok (replayedStep, ctx2) =>
      let md := compareSteps recordedStep replayedStep policy.ignore_timestamps
      let eventsInStep :=
        min recordedStep.events.length replayedStep.events.length
      let stepResult : ReplayStepResult :=
        ⟨stepIdx, recordedStep.name, eventsInStep, md.1, md.2⟩
      let acc2 := acc ++ [stepResult]
      if md.1 then
        executeReplayLoop recordedRun replayRunId executor policy amb
          (stepIdx + 1) (totalEvents + recordedStep.events.length) acc2 ctx2 rest
      else
        ⟨recordedRun.run_id, replayRunId, .diverged, stepIdx + 1,
          totalEvents + ((md.2.bind DivergencePoint.event_idx).getD 0),
          md.2, acc2, none⟩

/-- `ReplayEngine._execute_replay(recorded_run, ctx, executor, policy)`;
`replayRunId` stands for the generated `f"replay-{uuid4().hex[:8]}"` and
`amb` for the ambient replay-mode state at the engine call. -/
def executeReplay (recordedRun : Run) (replayRunId : String)
    (executor : Executor) (policy : ReplayPolicy) (amb : RMode) : ReplayResult :=
  executeReplayLoop recordedRun replayRunId executor policy amb 0 0 []
    (ReplayContext.init recordedRun) recordedRun.steps

/-- The S5 payload
`{"args": {"url": "https://x", "api_key": "sk-1"},
  "result": {"status": 200, "session": "s1"}}`. -/
def s5Payload : JVal :=
  .obj (.cons "args"
    (.obj (.cons "url" (.str "https://x") (.cons "api_key" (.str "sk-1") .nil)))
    (.cons "result"
      (.obj (.cons "status" (.intg 200) (.cons "session" (.str "s1") .nil)))
      .nil))

/-- The expected redaction of the S5 payload: `api_key` (key contains
`"key"`) and `session` masked, everything else untouched. -/
def s5Expected : JVal :=
  .obj (.cons "args"
    (.obj (.cons "url" (.str "https://x") (.cons "api_key" (.str "[REDACTED]") .nil)))
    (.cons "result"
      (.obj (.cons "status" (.intg 200) (.cons "session" (.str "[REDACTED]") .nil)))
      .nil))

/-- A one-step run used by the C9 witness: its only step carries an
`input` event and then an `output` event. -/
def c9Run : Run :=
  ⟨"run-c9", "t",
    [⟨none, "run-c9", 0, "s0", "t", none,
      [⟨none, "run-c9", 0, "input", "t", .null⟩,
       ⟨none, "run-c9", 0, "output", "t", .null⟩]⟩], none, none⟩

/-- The fresh replay context over `c9Run`. -/
def c9Ctx : ReplayContext := ReplayContext.init c9Run

/-- The `ReplayOrderError` raised when asking `c9Ctx` for an `output`
while the cursor is on the `input` event. -/
def c9Err : ReplayOrderError :=
  ⟨"Expected event type " ++ sq ++ "output" ++ sq ++
    " at step[0]/event[0], got " ++ sq ++ "input" ++ sq⟩

/-- Two runs for the C10 witness: the replay is longer, and its first step
already differs from the original's (different name). -/
def c10Original : Run :=
  ⟨"orig", "t", [⟨none, "orig", 0, "a", "t", none, []⟩], none, none⟩

/-- The longer replay run whose first step differs. -/
def c10Replay : Run :=
  ⟨"rep", "t",
    [⟨none, "rep", 0, "different", "t", none, []⟩,
     ⟨none, "rep", 1, "b", "t", none, []⟩], none, none⟩

/-- The executor adapter pattern of the claim: call
`guard_live_call("tool")` on the ambient state first, then return the
recorded step unchanged; a raised guard error becomes an executor
exception carrying its message. -/
def guardProbeExecutor : Executor := fun s c amb =>
  match guardLiveCall "tool" amb with
  | .ok _ => .ok (s, c)
  | .error e => .error e.message

/-- An executor that returns the recorded step unchanged and never
observes the ambient state. -/
def identityExecutor : Executor := fun s c _ => .ok (s, c)

/-- A one-step recorded run used for the C1 counterexample. -/
def c1Run : Run :=
  ⟨"run-c1", "t",
    [⟨none, "run-c1", 0, "s0", "t", none,
      [⟨none, "run-c1", 0, "input", "t", .obj (.cons "x" (.intg 1) .nil)⟩,
       ⟨none, "run-c1", 0, "output", "t", .obj (.cons "y" (.intg 2) .nil)⟩]⟩],
    none, none⟩

/-- Spec-side predicate, from the claim's words: `(da, db)` is a resync
candidate at cursor `start` when both offsets lie in `[0, window)`, their
Manhattan distance is at least one, both probed indices are in range, and
the step signatures agree. -/
def ResyncCandidate (O : CanonOracle) (stepsA stepsB : List Step)
    (start window da db : Nat) : Prop :=
  da < window ∧ db < window ∧ 1 ≤ da + db ∧
  start + da < stepsA.length ∧ start + db < stepsB.length ∧
  stepSignature O (stepAt stepsA (start + da)) =
    stepSignature O (stepAt stepsB (start + db))

/-- A concrete oracle for witnesses: the identity for NFC, a constant for
float repr (no witness value holds floats), and an injective tagging for
the hex digest. -/
def probeOracle : CanonOracle :=
  ⟨id, fun _ => "f",
   fun b => match b with
     | .text s => "sha:" ++ s
     | .raw bs => "raw:" ++ toString bs⟩

/-- Steps for the C2 witness: run A is `init, middle, end` and run B is
`init, end` (S4's deleted-middle shape), with one input event each. -/
def c2StepsA : List Step :=
  [⟨none, "a", 0, "init", "t", none,
     [⟨none, "a", 0, "input", "t", .obj (.cons "x" (.intg 0) .nil)⟩]⟩,
   ⟨none, "a", 1, "middle", "t", none,
     [⟨none, "a", 1, "input", "t", .obj (.cons "x" (.intg 1) .nil)⟩]⟩,
   ⟨none, "a", 2, "end", "t", none,
     [⟨none, "a", 2, "input", "t", .obj (.cons "x" (.intg 2) .nil)⟩]⟩]

/-- Run B of the C2 witness. -/
def c2StepsB : List Step :=
  [⟨none, "b", 0, "init", "t", none,
     [⟨none, "b", 0, "input", "t", .obj (.cons "x" (.intg 0) .nil)⟩]⟩,
   ⟨none, "b", 1, "end", "t", none,
     [⟨none, "b", 1, "input", "t", .obj (.cons "x" (.intg 2) .nil)⟩]⟩]

mutual
/-- Recursive equivalence-up-to-entry-permutation, the claim's "permutation
of its entries, at every nesting level": the entries are first made
pointwise equivalent (keys kept, values equivalent) and the resulting
entry list permuted. -/
inductive PermEquiv : JVal → JVal → Prop where
  | null : PermEquiv .null .null
  | boolean (b : Bool) : PermEquiv (.boolean b) (.boolean b)
  | intg (n : Int) : PermEquiv (.intg n) (.intg n)
  | fNaN : PermEquiv .fNaN .fNaN
  | fInf : PermEquiv .fInf .fInf
  | fNegInf : PermEquiv .fNegInf .fNegInf
  | fNegZero : PermEquiv .fNegZero .fNegZero
  | fFin (q : ℚ) : PermEquiv (.fFin q) (.fFin q)
  | str (s : String) : PermEquiv (.str s) (.str s)
  | byt (bs : List Nat) : PermEquiv (.byt bs) (.byt bs)
  | arr {xs ys : JList} : PermEquivList xs ys → PermEquiv (.arr xs) (.arr ys)
  | obj {kvs out : JObj} (mid : JObj) : PermEquivObj kvs mid →
      mid.toList.Perm out.toList → PermEquiv (.obj kvs) (.obj out)
/-- Pointwise equivalence of value lists (order kept: sequence order is
semantically significant). -/
inductive PermEquivList : JList → JList → Prop where
  | nil : PermEquivList .nil .nil
  | cons {hd hd' : JVal} {tl tl' : JList} : PermEquiv hd hd' →
      PermEquivList tl tl' → PermEquivList (.cons hd tl) (.cons hd' tl')
/-- Pointwise equivalence of mappings: same keys in the same order,
equivalent values. -/
inductive PermEquivObj : JObj → JObj → Prop where
  | nil : PermEquivObj .nil .nil
  | cons (k : String) {v w : JVal} {tl tl' : JObj} : PermEquiv v w →
      PermEquivObj tl tl' → PermEquivObj (.cons k v tl) (.cons k w tl')
end

mutual
/-- A mapping wherever it occurs has pairwise distinct keys (always true
of values arriving from Python dicts). -/
def wfKeysV : JVal → Bool
  | .arr xs => wfKeysL xs
  | .obj kvs => decide ((kvs.toList.map Prod.fst).Nodup) && wfKeysO kvs
  | _ => true
/-- `wfKeysV` over a list. -/
def wfKeysL : JList → Bool
  | .nil => true
  | .cons hd tl => wfKeysV hd && wfKeysL tl
/-- `wfKeysV` over a mapping's values. -/
def wfKeysO : JObj → Bool
  | .nil => true
  | .cons _ v tl => wfKeysV v && wfKeysO tl
end

/-- The C4 witness mapping
`{"a": 1, "b": {"c": null, "d": true}}`. -/
def c4M : JVal :=
  .obj (.cons "a" (.intg 1)
    (.cons "b" (.obj (.cons "c" .null (.cons "d" (.boolean true) .nil))) .nil))

/-- The same mapping with both levels permuted:
`{"b": {"d": true, "c": null}, "a": 1}`. -/
def c4M' : JVal :=
  .obj (.cons "b" (.obj (.cons "d" (.boolean true) (.cons "c" .null .nil)))
    (.cons "a" (.intg 1) .nil))

/-! ## Supporting lemmas and claim theorems -/

/-- C5 (counterexample): the claim predicts that `json_diff(True, 1)`
emits a `replace` because booleans and integers are distinct kinds; the
code instead takes the numeric branch (Python's `bool` is a subclass of
`int`, so `isinstance(True, (int, float))` holds) and `True == 1`, so no
operation at all is emitted. -/
theorem C5_claim_counterexample :
    json_diff (.boolean true) (.intg 1) "$" = [] ∧
    json_diff (.boolean true) (.intg 1) "$" ≠
      [DiffOp.replace "$" (.boolean true) (.intg 1)] := by
  have h : json_diff (.boolean true) (.intg 1) "$" = [] := rfl
  exact ⟨h, by rw [h]; simp⟩

/-- C5 (amended): for every pair of values of different runtime kinds at a
node, `json_diff` emits exactly one `replace` for the whole subtree —
except that integers, floats, *and booleans* all count as the numeric
kind and are compared numerically: numerically equal values (such as
`True` vs `1`) produce no operation, numerically different ones produce a
single `replace`. -/
theorem C5_kind_mismatch (old new : JVal) (path : String)
    (h : pyTypeOf old ≠ pyTypeOf new) :
    json_diff old new path =
      if isNumInst old && isNumInst new then
        (if pyNumEq old new then [] else [DiffOp.replace path old new])
      else [DiffOp.replace path old new] := by
  cases old <;> cases new <;>
    simp_all [json_diff, jsonDiffF, pyTypeOf, isNumInst, JVal.size, JList.size,
      JObj.size]

/-- C5 (witness): a concrete kind mismatch, `"a"` vs `1`, yields exactly
one `replace`. -/
theorem C5_kind_mismatch_witness :
    pyTypeOf (.str "a") ≠ pyTypeOf (.intg 1) ∧
    json_diff (.str "a") (.intg 1) "$" = [DiffOp.replace "$" (.str "a") (.intg 1)] := by
  refine ⟨by decide, ?_⟩
  have h := C5_kind_mismatch (.str "a") (.intg 1) "$" (by decide)
  simpa [isNumInst] using h

/-- C7: redacting the S5 payload under the default policy masks exactly
`api_key` and `session` and leaves the rest intact, for every event type
and every hash oracle (no `hash` rule fires); the embedding is pure, so
the input value is returned unchanged to the caller and a new value is
produced, as the source's deep copy guarantees. -/
theorem C7_default_redaction (hashOracle : JVal → String) (eventType : String) :
    redact createDefaultPolicy hashOracle eventType s5Payload = s5Expected := by
  rfl

/-- C8: `_find_matching_rule` returns `r` exactly when `r` matches the
`(key, path)` pair and every rule listed before `r` fails to match: the
applied action (see `redactDict`) is always that of the earliest matching
rule, so when two rules both match, the earlier one wins. -/
theorem C8_first_rule_wins (rules : List RedactionRule) (key path : String)
    (r : RedactionRule) :
    findMatchingRule rules key path = some r ↔
      ruleMatches r key path = true ∧
      ∃ pre post, rules = pre ++ r :: post ∧
        ∀ r2 ∈ pre, ruleMatches r2 key path = false := by
  unfold findMatchingRule
  rw [List.find?_eq_some]
  simp

/-- C8 (witness): with two rules that both match key `api_key`, the first
rule (`mask` on `"key"`) is returned, not the second (`drop` on `"api"`). -/
theorem C8_first_rule_wins_witness :
    findMatchingRule [⟨.mask, some "key", none⟩, ⟨.drop, some "api", none⟩]
      "api_key" "args.api_key" = some ⟨.mask, some "key", none⟩ := by
  exact (C8_first_rule_wins _ "api_key" "args.api_key" _).mpr
    ⟨by rfl, [], [⟨.drop, some "api", none⟩], rfl, by simp⟩

/-- C9: when `ReplayContext.next_event(step_idx, expected_type)` raises a
`ReplayOrderError`, the context is unchanged (the cursor was not
advanced), the event at the cursor still exists, and a subsequent
`next_event(step_idx)` with no expected type returns exactly that event. -/
theorem C9_nextEvent_error_preserves_state (ctx : ReplayContext)
    (stepIdx : Nat) (t : String) (e : ReplayOrderError) (ctx' : ReplayContext)
    (h : ctx.nextEvent stepIdx (some t) = (.error e, ctx')) :
    ctx' = ctx ∧ (ctx.peekEvent stepIdx).isSome ∧
      (ctx'.nextEvent stepIdx none).1 = .ok (ctx.peekEvent stepIdx) := by
  unfold ReplayContext.nextEvent at h
  split at h
  · exact absurd h (by simp)
  case h_2 step hs =>
    dsimp only at h
    split at h
    · exact absurd h (by simp)
    case isFalse hc =>
      split at h
      case isTrue hf =>
        obtain ⟨h1, h2⟩ := Prod.ext_iff.mp h
        subst h2
        refine ⟨rfl, ?_, ?_⟩
        · unfold ReplayContext.peekEvent
          rw [hs]
          simp [if_neg hc]
        · unfold ReplayContext.nextEvent ReplayContext.peekEvent
          rw [hs]
          dsimp only
          rw [if_neg hc, if_neg hc]
          simp
      case isFalse hf =>
        exact absurd h (by simp)

/-- C9 (witness): asking for an `output` first raises and leaves the
context unchanged; the cursor still yields the `input` event. -/
theorem C9_nextEvent_error_witness :
    c9Ctx = c9Ctx ∧ (c9Ctx.peekEvent 0).isSome ∧
      (c9Ctx.nextEvent 0 none).1 = .ok (c9Ctx.peekEvent 0) := by
  exact C9_nextEvent_error_preserves_state c9Ctx 0 "output" c9Err c9Ctx (by rfl)

/-- C10: whenever the replay run has strictly more steps than the original
run, `_compare_loaded_runs` returns exactly the `DIVERGED` record with
reason `extra_steps_in_replay` at index `len(original.steps)`,
`steps_compared = 0`, no step results, and the single `steps.(length)`
field diff — regardless of the step contents, so no step pair is compared
even when an earlier pair differs. -/
theorem C10_extra_steps_short_circuit (original replay : Run)
    (ignoreTimestamps : Bool)
    (h : original.steps.length < replay.steps.length) :
    compareLoadedRuns original replay ignoreTimestamps =
      ⟨original.run_id, replay.run_id, .diverged, 0, 0,
        some ⟨original.steps.length, "<beyond original>", none,
          "extra_steps_in_replay",
          [⟨"steps.(length)", .intg original.steps.length,
            .intg replay.steps.length⟩], []⟩,
        [], none⟩ := by
  unfold compareLoadedRuns
  rw [if_pos h]

/-- C10 (witness): the extra-steps short circuit on the concrete pair,
even though step 0 differs by name. -/
theorem C10_extra_steps_witness :
    compareLoadedRuns c10Original c10Replay true =
      ⟨"orig", "rep", .diverged, 0, 0,
        some ⟨1, "<beyond original>", none, "extra_steps_in_replay",
          [⟨"steps.(length)", .intg 1, .intg 2⟩], []⟩,
        [], none⟩ := by
  exact C10_extra_steps_short_circuit c10Original c10Replay true (by decide)

/-- C3: `guard_live_call` raises iff the ambient replay-mode flag is set —
which is exactly the dynamic extent of a `replay_mode` scope: the scope
runs its body at state `⟨true, rid⟩` and restores the caller's state on
every exit path (the body's outcome, normal or exceptional, is passed
through untouched, so this covers exceptional exits); inside the scope the
raised error carries the operation name and the current run id — or
`"unknown"` when none was supplied — with violation subtype
`live_call_during_replay`; at an inactive state (so after the scope exits
back to one) the guard returns normally. -/
theorem C3_guard_iff_replay_scope {ε α : Type} (op : String)
    (rid : Option String) (st : RMode) (body : RMode → Except ε α × RMode) :
    (∀ st' : RMode,
      (∃ e, guardLiveCall op st' = .error e) ↔ isReplayModeActive st' = true) ∧
    replayModeScope rid body st = ((body ⟨true, rid⟩).1, st) ∧
    guardLiveCall op ⟨true, rid⟩ =
      .error ⟨guardMessage op (orUnknown rid), -1, "<recorded artifact>",
        "<live " ++ op ++ ">", "live_call_during_replay"⟩ ∧
    (isReplayModeActive st = false → guardLiveCall op st = .ok ()) := by
  refine ⟨?_, rfl, rfl, ?_⟩
  · intro st'
    constructor
    · intro ⟨e, he⟩
      by_contra hact
      simp only [isReplayModeActive, Bool.not_eq_true] at hact
      simp [guardLiveCall, assertNotInReplayMode, isReplayModeActive, hact] at he
    · intro hact
      simp only [isReplayModeActive] at hact
      refine ⟨⟨guardMessage op (orUnknown (getReplayRunId st')), -1,
        "<recorded artifact>", "<live " ++ op ++ ">",
        "live_call_during_replay"⟩, ?_⟩
      simp [guardLiveCall, assertNotInReplayMode, isReplayModeActive, hact]
  · intro hact
    simp [guardLiveCall, assertNotInReplayMode, hact]

/-- C3 (witness): a body that calls the guard inside a
`replay_mode("run-X")` scope from the initial state: the scope's result is
the guard's error at `⟨true, "run-X"⟩`, and the final state is the initial
state again. -/
theorem C3_guard_iff_replay_scope_witness :
    replayModeScope (some "run-X")
        (fun st => (guardLiveCall "tool" st, st)) RMode.initial =
      (guardLiveCall "tool" ⟨true, some "run-X"⟩, RMode.initial) :=
  (C3_guard_iff_replay_scope "tool" (some "run-X") RMode.initial
    (fun st => (guardLiveCall "tool" st, st))).2.1

/-- C1 (counterexample): the claim predicts that `guard_live_call` inside
the executor raises (the executor runs "under the replay-mode scope"), so
the replay would terminate with status `error`; running `_execute_replay`
from the default ambient state with a guard-probing executor instead
completes with status `match` — the guard never fired. -/
theorem C1_claim_counterexample :
    (executeReplay c1Run "replay-1" guardProbeExecutor
      ReplayPolicy.defaultPolicy RMode.initial).status = .matched ∧
    (executeReplay c1Run "replay-1" guardProbeExecutor
      ReplayPolicy.defaultPolicy RMode.initial).status ≠ .error := by
  have h : (executeReplay c1Run "replay-1" guardProbeExecutor
      ReplayPolicy.defaultPolicy RMode.initial).status = .matched := rfl
  exact ⟨h, by rw [h]; simp⟩

/-- The executor loop only ever invokes the executor at the engine's own
ambient state, so two executors that agree there yield identical results. -/
theorem executeReplayLoop_executor_congr (recordedRun : Run)
    (replayRunId : String) (policy : ReplayPolicy) (amb : RMode)
    (e1 e2 : Executor) (hagree : ∀ s c, e1 s c amb = e2 s c amb) :
    ∀ (steps : List Step) (stepIdx totalEvents : Nat)
      (acc : List ReplayStepResult) (ctx : ReplayContext),
      executeReplayLoop recordedRun replayRunId e1 policy amb stepIdx
          totalEvents acc ctx steps =
        executeReplayLoop recordedRun replayRunId e2 policy amb stepIdx
          totalEvents acc ctx steps := by
  intro steps
  induction steps with
  | nil => intro _ _ _ _; rfl
  | cons s rest ih =>
    intro stepIdx totalEvents acc ctx
    simp only [executeReplayLoop]
    rw [hagree s ctx]
    cases e2 s ctx amb with
    | error e => rfl
    | ok pr =>
      obtain ⟨rs, ctx2⟩ := pr
      dsimp only
      split
      · exact ih ..
      · rfl

/-- C1 (amended): `ReplayEngine._execute_replay` invokes the executor
*without* entering the replay-mode scope: every executor call observes the
engine caller's ambient replay-mode state unchanged (so executors agreeing
at that state give identical replay results), and at the default inactive
state `guard_live_call` inside the executor returns normally instead of
raising. -/
theorem C1_executor_runs_outside_replay_scope (recordedRun : Run)
    (replayRunId : String) (policy : ReplayPolicy) (amb : RMode)
    (e1 e2 : Executor) (hagree : ∀ s c, e1 s c amb = e2 s c amb) :
    executeReplay recordedRun replayRunId e1 policy amb =
      executeReplay recordedRun replayRunId e2 policy amb ∧
    (isReplayModeActive amb = false →
      ∀ op, guardLiveCall op amb = .ok ()) := by
  constructor
  · exact executeReplayLoop_executor_congr recordedRun replayRunId policy amb
      e1 e2 hagree recordedRun.steps 0 0 [] (ReplayContext.init recordedRun)
  · intro hact op
    simp [guardLiveCall, assertNotInReplayMode, hact]

/-- C1 (witness): from the default ambient state the guard-probing
executor and the identity executor agree, so the two replays coincide and
the guard succeeds. -/
theorem C1_executor_outside_scope_witness :
    executeReplay c1Run "replay-1" guardProbeExecutor
        ReplayPolicy.defaultPolicy RMode.initial =
      executeReplay c1Run "replay-1" identityExecutor
        ReplayPolicy.defaultPolicy RMode.initial ∧
    (isReplayModeActive RMode.initial = false →
      ∀ op, guardLiveCall op RMode.initial = .ok ()) :=
  C1_executor_runs_outside_replay_scope c1Run "replay-1"
    ReplayPolicy.defaultPolicy RMode.initial guardProbeExecutor
    identityExecutor (fun _ _ => rfl)

/-- A probe succeeds when its offsets are a candidate pair. -/
theorem tryResyncCell_of_candidate (O : CanonOracle)
    (stepsA stepsB : List Step) (start window da db : Nat)
    (h : ResyncCandidate O stepsA stepsB start window da db) :
    tryResyncCell O stepsA stepsB start window (da + db) da =
      some (start + da, start + db) := by
  obtain ⟨h1, h2, h3, h4, h5, h6⟩ := h
  unfold tryResyncCell
  have hdb : da + db - da = db := by omega
  rw [hdb]
  rw [if_neg (by omega), if_neg (by omega), if_pos h6]

/-- What a successful probe tells us: the conditions all held and the
result is the pair of absolute indices. -/
theorem tryResyncCell_some_elim (O : CanonOracle)
    (stepsA stepsB : List Step) (start window t oa : Nat) (r : Nat × Nat)
    (h : tryResyncCell O stepsA stepsB start window t oa = some r) :
    t - oa < window ∧ start + oa < stepsA.length ∧
      start + (t - oa) < stepsB.length ∧
      stepSignature O (stepAt stepsA (start + oa)) =
        stepSignature O (stepAt stepsB (start + (t - oa))) ∧
      r = (start + oa, start + (t - oa)) := by
  unfold tryResyncCell at h
  dsimp only at h
  by_cases h1 : t - oa ≥ window
  · rw [if_pos h1] at h; exact absurd h (by simp)
  rw [if_neg h1] at h
  by_cases h2 : start + oa ≥ stepsA.length ∨ start + (t - oa) ≥ stepsB.length
  · rw [if_pos h2] at h; exact absurd h (by simp)
  rw [if_neg h2] at h
  by_cases h3 : stepSignature O (stepAt stepsA (start + oa)) =
      stepSignature O (stepAt stepsB (start + (t - oa)))
  · rw [if_pos h3] at h
    push_neg at h1 h2
    exact ⟨h1, h2.1, h2.2, h3, (Option.some.inj h).symm⟩
  · rw [if_neg h3] at h; exact absurd h (by simp)

/-- A split of `range' s n` at an element determines the element and makes
the left part exactly the smaller values. -/
theorem range'_split_mem (s n : Nat) (l₁ l₂ : List Nat) (x : Nat)
    (h : List.range' s n = l₁ ++ x :: l₂) :
    x = s + l₁.length ∧ ∀ y, s ≤ y → y < x → y ∈ l₁ := by
  obtain ⟨k, hk, hl₁, hcons⟩ := List.range'_eq_append_iff.mp h
  cases hnk : n - k with
  | zero => rw [hnk] at hcons; simp at hcons
  | succ m =>
    rw [hnk, List.range'_succ] at hcons
    obtain ⟨hx, -⟩ := List.cons.injEq .. ▸ hcons
    subst hl₁
    constructor
    · simp [hx.symm]
    · intro y hy1 hy2
      rw [List.mem_range'_1]
      omega

/-- The inner loop finds a probe exactly when one succeeds; on success the
earlier offsets all failed. -/
theorem tryResyncRow_some_elim (O : CanonOracle)
    (stepsA stepsB : List Step) (start window t : Nat) (r : Nat × Nat)
    (h : tryResyncRow O stepsA stepsB start window t = some r) :
    ∃ oa, oa < min (t + 1) window ∧
      tryResyncCell O stepsA stepsB start window t oa = some r ∧
      ∀ oa', oa' < oa → tryResyncCell O stepsA stepsB start window t oa' = none := by
  unfold tryResyncRow at h
  obtain ⟨l₁, oa, l₂, hsplit, hcell, hearly⟩ := List.findSome?_eq_some_iff.mp h
  rw [List.range_eq_range'] at hsplit
  obtain ⟨hx, hmem⟩ := range'_split_mem 0 (min (t + 1) window) l₁ l₂ oa hsplit
  have hoa : oa ∈ List.range' 0 (min (t + 1) window) := by
    rw [hsplit]; simp
  rw [List.mem_range'_1] at hoa
  exact ⟨oa, by omega, hcell,
    fun oa' hlt => hearly oa' (hmem oa' (Nat.zero_le _) hlt)⟩

/-- The outer scan: each claim conjunct of C2 is proved from this shape. -/
theorem tryResync_some_elim (O : CanonOracle) (stepsA stepsB : List Step)
    (start window : Nat) (r : Nat × Nat)
    (h : tryResync O stepsA stepsB start window = some r) :
    ∃ t, 1 ≤ t ∧ t ≤ 2 * window ∧
      tryResyncRow O stepsA stepsB start window t = some r ∧
      ∀ t', 1 ≤ t' → t' < t →
        tryResyncRow O stepsA stepsB start window t' = none := by
  unfold tryResync at h
  obtain ⟨l₁, t, l₂, hsplit, hrow, hearly⟩ := List.findSome?_eq_some_iff.mp h
  obtain ⟨hx, hmem⟩ := range'_split_mem 1 (2 * window) l₁ l₂ t hsplit
  have ht : t ∈ List.range' 1 (2 * window) := by
    rw [hsplit]; simp
  rw [List.mem_range'_1] at ht
  exact ⟨t, ht.1, by omega, hrow,
    fun t' h1 h2 => hearly t' (hmem t' h1 h2)⟩

/-- C2: on a lockstep mismatch at cursor `i`, the engine resyncs at the
lexicographically smallest `(da + db, da)` among the signature-matching
offset pairs with `da, db ∈ [0, window)` (part one: soundness with
minimality; part two: completeness), and classifies the found pair as the
claim states: a pure gap in run A (`da > 0, db = 0`) is `missing_steps`, a
pure gap in run B is `extra_steps`, and a two-sided gap falls through to
the step-local classification `dtype` computed at `i` — which is what the
lockstep loop passes to the mismatch branch (part four). -/
theorem C2_resync_minimal_and_classified (O : CanonOracle)
    (stepsA stepsB : List Step) (window ctxSize : Nat) (shw : String)
    (i : Nat) (lastEqual : Int) :
    (∀ ia ib, tryResync O stepsA stepsB i window = some (ia, ib) →
      ∃ da db, ia = i + da ∧ ib = i + db ∧
        ResyncCandidate O stepsA stepsB i window da db ∧
        ∀ da' db', ResyncCandidate O stepsA stepsB i window da' db' →
          da + db < da' + db' ∨ (da + db = da' + db' ∧ da ≤ da')) ∧
    ((∃ da db, ResyncCandidate O stepsA stepsB i window da db) →
      (tryResync O stepsA stepsB i window).isSome) ∧
    (∀ ia ib, tryResync O stepsA stepsB i window = some (ia, ib) →
      ∀ dtype : String,
        ((i < ia ∧ ib = i) →
          (ffdMismatch O stepsA stepsB window ctxSize shw i lastEqual
            dtype).status = DivergenceType.MISSING_STEPS) ∧
        ((ia = i ∧ i < ib) →
          (ffdMismatch O stepsA stepsB window ctxSize shw i lastEqual
            dtype).status = DivergenceType.EXTRA_STEPS) ∧
        ((i < ia ∧ i < ib) →
          (ffdMismatch O stepsA stepsB window ctxSize shw i lastEqual
            dtype).status = dtype)) ∧
    (∀ fuel, i < stepsA.length → i < stepsB.length →
      classifyStepDivergence O (stepAt stepsA i) (stepAt stepsB i) ≠
        DivergenceType.EXACT_MATCH →
      ffdLoop O stepsA stepsB window ctxSize shw (fuel + 1) i lastEqual =
        ffdMismatch O stepsA stepsB window ctxSize shw i lastEqual
          (classifyStepDivergence O (stepAt stepsA i) (stepAt stepsB i))) := by
  refine ⟨?_, ?_, ?_, ?_⟩
  · -- soundness with minimality
    intro ia ib h
    obtain ⟨t, ht1, ht2, hrow, hearlyT⟩ := tryResync_some_elim O stepsA stepsB
      i window (ia, ib) h
    obtain ⟨oa, hoa, hcell, hearlyA⟩ := tryResyncRow_some_elim O stepsA stepsB
      i window t (ia, ib) hrow
    obtain ⟨hw1, hb1, hb2, hsig, hpair⟩ := tryResyncCell_some_elim O stepsA
      stepsB i window t oa (ia, ib) hcell
    obtain ⟨hia, hib⟩ := Prod.mk.injEq .. ▸ hpair
    have hoat : oa ≤ t := by omega
    refine ⟨oa, t - oa, hia, hib,
      ⟨by omega, hw1, by omega, hb1, hb2, hsig⟩, ?_⟩
    rintro da' db' ⟨c1, c2, c3, c4, c5, c6⟩
    rcases Nat.lt_trichotomy (da' + db') (oa + (t - oa)) with hlt | heq | hgt
    · -- a strictly closer candidate would have been seen in an earlier row
      exfalso
      have hrow' : tryResyncRow O stepsA stepsB i window (da' + db') = none :=
        hearlyT (da' + db') (by omega) (by omega)
      have hnone : tryResyncCell O stepsA stepsB i window (da' + db') da' =
          none := by
        have := List.findSome?_eq_none_iff.mp hrow'
        exact this da' (by rw [List.mem_range]; omega)
      have hsome := tryResyncCell_of_candidate O stepsA stepsB i window da' db'
        ⟨c1, c2, c3, c4, c5, c6⟩
      rw [hnone] at hsome
      exact absurd hsome (by simp)
    · -- same distance: an earlier offset in the same row would have won
      right
      refine ⟨by omega, ?_⟩
      by_contra hcon
      push_neg at hcon
      have hnone := hearlyA da' (by omega)
      have hsome := tryResyncCell_of_candidate O stepsA stepsB i window da' db'
        ⟨c1, c2, c3, c4, c5, c6⟩
      have hteq : da' + db' = t := by omega
      rw [hteq] at hsome
      rw [hnone] at hsome
      exact absurd hsome (by simp)
    · left; omega
  · -- completeness
    rintro ⟨da, db, hcand⟩
    by_contra hcon
    rw [Option.not_isSome_iff_eq_none] at hcon
    unfold tryResync at hcon
    have hrow : tryResyncRow O stepsA stepsB i window (da + db) = none := by
      have := List.findSome?_eq_none_iff.mp hcon
      refine this (da + db) ?_
      rw [List.mem_range'_1]
      obtain ⟨c1, c2, c3, -⟩ := hcand
      omega
    have hnone : tryResyncCell O stepsA stepsB i window (da + db) da = none := by
      have := List.findSome?_eq_none_iff.mp hrow
      refine this da ?_
      rw [List.mem_range]
      obtain ⟨c1, -⟩ := hcand
      omega
    have hsome := tryResyncCell_of_candidate O stepsA stepsB i window da db hcand
    rw [hnone] at hsome
    exact absurd hsome (by simp)
  · -- classification of the found pair
    intro ia ib h dtype
    refine ⟨?_, ?_, ?_⟩
    · rintro ⟨h1, h2⟩
      unfold ffdMismatch
      rw [h]
      dsimp only
      rw [if_pos (by omega : 0 < ia - i ∧ ib - i = 0)]
    · rintro ⟨h1, h2⟩
      unfold ffdMismatch
      rw [h]
      dsimp only
      rw [if_neg (by omega : ¬(0 < ia - i ∧ ib - i = 0)),
        if_pos (by omega : 0 < ib - i ∧ ia - i = 0)]
    · rintro ⟨h1, h2⟩
      unfold ffdMismatch
      rw [h]
      dsimp only
      rw [if_neg (by omega : ¬(0 < ia - i ∧ ib - i = 0)),
        if_neg (by omega : ¬(0 < ib - i ∧ ia - i = 0))]
  · -- the lockstep loop hands mismatches to this branch
    intro fuel hi hj hmis
    show (if i < stepsA.length ∧ i < stepsB.length then _ else _) = _
    rw [if_pos ⟨hi, hj⟩]
    dsimp only
    rw [if_neg hmis]

/-- C2 (witness): at the mismatch at cursor 1 the search finds `(2, 1)` —
offsets `(1, 0)` — and the mismatch branch reports `missing_steps`. -/
theorem C2_resync_witness :
    (ffdMismatch probeOracle c2StepsA c2StepsB 10 2 "both" 1 0
      (classifyStepDivergence probeOracle (stepAt c2StepsA 1)
        (stepAt c2StepsB 1))).status = DivergenceType.MISSING_STEPS := by
  exact ((C2_resync_minimal_and_classified probeOracle c2StepsA c2StepsB 10 2
    "both" 1 0).2.2.1 2 1 (by rfl) _).1 ⟨by decide, by rfl⟩

/-- Totality of the code-point order. -/
theorem charListLe_total : ∀ xs ys : List Char,
    charListLe xs ys = true ∨ charListLe ys xs = true
  | [], _ => Or.inl rfl
  | _ :: _, [] => Or.inr rfl
  | a :: as, b :: bs => by
    rcases Nat.lt_trichotomy a.toNat b.toNat with h | h | h
    · left; unfold charListLe; rw [if_pos h]
    · rcases charListLe_total as bs with ih | ih
      · left; unfold charListLe
        rw [if_neg (by omega), if_neg (by omega)]; exact ih
      · right; unfold charListLe
        rw [if_neg (by omega), if_neg (by omega)]; exact ih
    · right; unfold charListLe; rw [if_pos h]

/-- Antisymmetry of the code-point order. -/
theorem charListLe_antisymm : ∀ xs ys : List Char,
    charListLe xs ys = true → charListLe ys xs = true → xs = ys
  | [], [], _, _ => rfl
  | [], _ :: _, _, h2 => by simp [charListLe] at h2
  | _ :: _, [], h1, _ => by simp [charListLe] at h1
  | a :: as, b :: bs, h1, h2 => by
    rcases Nat.lt_trichotomy a.toNat b.toNat with h | h | h
    · unfold charListLe at h2
      rw [if_neg (by omega), if_pos (by omega)] at h2
      exact absurd h2 (by simp)
    · have hab : a = b := by
        have ha := Char.ofNat_toNat a
        rw [h, Char.ofNat_toNat b] at ha
        exact ha.symm
      subst hab
      unfold charListLe at h1 h2
      rw [if_neg (by omega), if_neg (by omega)] at h1 h2
      rw [charListLe_antisymm as bs h1 h2]
    · unfold charListLe at h1
      rw [if_neg (by omega), if_pos (by omega)] at h1
      exact absurd h1 (by simp)

/-- Transitivity of the code-point order. -/
theorem charListLe_trans : ∀ xs ys zs : List Char,
    charListLe xs ys = true → charListLe ys zs = true →
    charListLe xs zs = true
  | [], _, _, _, _ => rfl
  | _ :: _, [], _, h1, _ => by simp [charListLe] at h1
  | _ :: _, _ :: _, [], _, h2 => by simp [charListLe] at h2
  | a :: as, b :: bs, c :: cs, h1, h2 => by
    unfold charListLe at h1 h2 ⊢
    rcases Nat.lt_trichotomy a.toNat b.toNat with hab | hab | hab <;>
      rcases Nat.lt_trichotomy b.toNat c.toNat with hbc | hbc | hbc
    · rw [if_pos (by omega)]
    · rw [if_pos (by omega)]
    · rw [if_neg (by omega), if_pos (by omega)] at h2
      exact absurd h2 (by simp)
    · rw [if_pos (by omega)]
    · rw [if_neg (by omega), if_neg (by omega)] at h1 h2 ⊢
      exact charListLe_trans as bs cs h1 h2
    · rw [if_neg (by omega), if_pos (by omega)] at h2
      exact absurd h2 (by simp)
    · rw [if_neg (by omega), if_pos (by omega)] at h1
      exact absurd h1 (by simp)
    · rw [if_neg (by omega), if_pos (by omega)] at h1
      exact absurd h1 (by simp)
    · rw [if_neg (by omega), if_pos (by omega)] at h1
      exact absurd h1 (by simp)

/-- Totality of the entry comparator. -/
theorem keyLe_total (a b : String × JVal) : keyLe a b = true ∨ keyLe b a = true :=
  charListLe_total a.1.data b.1.data

/-- Transitivity of the entry comparator. -/
theorem keyLe_trans (a b c : String × JVal) (h1 : keyLe a b = true)
    (h2 : keyLe b c = true) : keyLe a c = true :=
  charListLe_trans a.1.data b.1.data c.1.data h1 h2

/-- Mutually `keyLe`-comparable entries share their key. -/
theorem key_eq_of_keyLe (a b : String × JVal) (h1 : keyLe a b = true)
    (h2 : keyLe b a = true) : a.1 = b.1 :=
  String.ext (charListLe_antisymm a.1.data b.1.data h1 h2)

/-- `insertSorted` inserts: a permutation of consing. -/
theorem insertSorted_perm (le : α → α → Bool) (x : α) :
    ∀ l : List α, (insertSorted le x l).Perm (x :: l)
  | [] => List.Perm.refl _
  | y :: ys => by
    unfold insertSorted
    by_cases h : le x y = true
    · rw [if_pos h]
    · rw [if_neg h]
      exact (List.Perm.cons y (insertSorted_perm le x ys)).trans
        (List.Perm.swap x y ys)

/-- `sortBy` permutes its input. -/
theorem sortBy_perm (le : α → α → Bool) : ∀ l : List α, (sortBy le l).Perm l
  | [] => List.Perm.refl _
  | x :: xs => (insertSorted_perm le x (sortBy le xs)).trans
      (List.Perm.cons x (sortBy_perm le xs))

/-- Insertion keeps a list sorted, given a total transitive comparator. -/
theorem insertSorted_pairwise (le : α → α → Bool)
    (htot : ∀ a b, le a b = true ∨ le b a = true)
    (htrans : ∀ a b c, le a b = true → le b c = true → le a c = true)
    (x : α) : ∀ l : List α, List.Pairwise (fun a b => le a b = true) l →
    List.Pairwise (fun a b => le a b = true) (insertSorted le x l)
  | [], _ => by simp [insertSorted]
  | y :: ys, h => by
    obtain ⟨hy, hys⟩ := List.pairwise_cons.mp h
    unfold insertSorted
    by_cases hxy : le x y = true
    · rw [if_pos hxy]
      refine List.pairwise_cons.mpr ⟨?_, h⟩
      intro z hz
      rcases List.mem_cons.mp hz with rfl | hz
      · exact hxy
      · exact htrans x y z hxy (hy z hz)
    · rw [if_neg hxy]
      refine List.pairwise_cons.mpr ⟨?_, insertSorted_pairwise le htot htrans x ys hys⟩
      intro z hz
      have hz2 : z ∈ x :: ys := (insertSorted_perm le x ys).mem_iff.mp hz
      rcases List.mem_cons.mp hz2 with rfl | hz2
      · rcases htot z y with h' | h'
        · exact absurd h' hxy
        · exact h'
      · exact hy z hz2

/-- `sortBy` sorts, given a total transitive comparator. -/
theorem sortBy_pairwise (le : α → α → Bool)
    (htot : ∀ a b, le a b = true ∨ le b a = true)
    (htrans : ∀ a b c, le a b = true → le b c = true → le a c = true) :
    ∀ l : List α, List.Pairwise (fun a b => le a b = true) (sortBy le l)
  | [] => List.Pairwise.nil
  | x :: xs => insertSorted_pairwise le htot htrans x (sortBy le xs)
      (sortBy_pairwise le htot htrans xs)

/-- Two sorted entry lists that are permutations of each other and have
pairwise distinct keys are equal. -/
theorem sorted_keyed_unique : ∀ l₁ l₂ : List (String × JVal), l₁.Perm l₂ →
    List.Pairwise (fun a b => keyLe a b = true) l₁ →
    List.Pairwise (fun a b => keyLe a b = true) l₂ →
    (l₁.map Prod.fst).Nodup → l₁ = l₂
  | [], l₂, hp, _, _, _ => hp.nil_eq
  | x :: xs, l₂, hp, h1, h2, hnd => by
    cases l₂ with
    | nil => exact absurd hp.eq_nil (by simp)
    | cons y ys =>
      have hnd' : (x.1 :: xs.map Prod.fst).Nodup := by
        rw [List.map_cons] at hnd; exact hnd
      have hndp := List.nodup_cons.mp hnd'
      by_cases hxy : x = y
      · subst hxy
        have htail := sorted_keyed_unique xs ys hp.cons_inv
          (List.pairwise_cons.mp h1).2 (List.pairwise_cons.mp h2).2 hndp.2
        rw [htail]
      · exfalso
        have hxm : x ∈ y :: ys := hp.subset (List.mem_cons_self x xs)
        have hxys : x ∈ ys := by
          rcases List.mem_cons.mp hxm with h | h
          · exact absurd h hxy
          · exact h
        have hym : y ∈ x :: xs := hp.symm.subset (List.mem_cons_self y ys)
        have hyxs : y ∈ xs := by
          rcases List.mem_cons.mp hym with h | h
          · exact absurd h.symm hxy
          · exact h
        have hk1 : keyLe x y = true := (List.pairwise_cons.mp h1).1 y hyxs
        have hk2 : keyLe y x = true := (List.pairwise_cons.mp h2).1 x hxys
        have hkey : x.1 = y.1 := key_eq_of_keyLe x y hk1 hk2
        have hmem : y.1 ∈ xs.map Prod.fst := List.mem_map_of_mem Prod.fst hyxs
        rw [← hkey] at hmem
        exact hndp.1 hmem

/-- The stable sort by key is determined by the multiset of entries when
the keys are pairwise distinct. -/
theorem sortBy_keyLe_eq_of_perm (l l' : List (String × JVal)) (hp : l.Perm l')
    (hnd : (l.map Prod.fst).Nodup) : sortBy keyLe l = sortBy keyLe l' :=
  sorted_keyed_unique _ _
    ((sortBy_perm keyLe l).trans (hp.trans (sortBy_perm keyLe l').symm))
    (sortBy_pairwise keyLe keyLe_total keyLe_trans l)
    (sortBy_pairwise keyLe keyLe_total keyLe_trans l')
    (((sortBy_perm keyLe l).map Prod.fst).nodup_iff.mpr hnd)

/-- `normO` maps entrywise, keeping keys. -/
theorem normO_toList (O : CanonOracle) : ∀ kvs : JObj,
    (normO O kvs).toList = kvs.toList.map (fun kv => (kv.1, normV O kv.2))
  | .nil => rfl
  | .cons k v tl => by
    simp only [normO, JObj.toList, List.map_cons]
    rw [normO_toList O tl]

/-- Pointwise-equivalent mappings list the same keys. -/
theorem permEquivObj_keys : ∀ {a b : JObj}, PermEquivObj a b →
    a.toList.map Prod.fst = b.toList.map Prod.fst
  | _, _, .nil => rfl
  | _, _, .cons k hv ht => by
    simp only [JObj.toList, List.map_cons]
    rw [permEquivObj_keys ht]

mutual
/-- Normalisation is invariant under recursive entry permutation of
mappings with distinct keys. -/
theorem normV_permEquiv (O : CanonOracle) : ∀ {a b : JVal}, PermEquiv a b →
    wfKeysV a = true → normV O a = normV O b
  | _, _, .null, _ => rfl
  | _, _, .boolean _, _ => rfl
  | _, _, .intg _, _ => rfl
  | _, _, .fNaN, _ => rfl
  | _, _, .fInf, _ => rfl
  | _, _, .fNegInf, _ => rfl
  | _, _, .fNegZero, _ => rfl
  | _, _, .fFin _, _ => rfl
  | _, _, .str _, _ => rfl
  | _, _, .byt _, _ => rfl
  | _, _, .arr hl, hwf => by
    simp only [wfKeysV] at hwf
    simp only [normV]
    rw [normL_permEquiv O hl hwf]
  | _, _, .obj mid h1 h2, hwf => by
    simp only [wfKeysV, Bool.and_eq_true, decide_eq_true_eq] at hwf
    obtain ⟨hnd, hwfO⟩ := hwf
    have heq : normO O _ = normO O mid := normO_permEquiv O h1 hwfO
    simp only [normV]
    congr 1
    unfold sortObj
    rw [heq]
    congr 1
    refine sortBy_keyLe_eq_of_perm _ _ ?_ ?_
    · rw [normO_toList, normO_toList]
      exact h2.map _
    · rw [normO_toList, List.map_map]
      have hfst : (Prod.fst ∘ fun kv : String × JVal => (kv.1, normV O kv.2)) =
          Prod.fst := funext (fun kv => rfl)
      rw [hfst, ← permEquivObj_keys h1]
      exact hnd
/-- Pointwise case of `normV_permEquiv` for lists. -/
theorem normL_permEquiv (O : CanonOracle) : ∀ {xs ys : JList},
    PermEquivList xs ys → wfKeysL xs = true → normL O xs = normL O ys
  | _, _, .nil, _ => rfl
  | _, _, .cons hv ht, hwf => by
    simp only [wfKeysL, Bool.and_eq_true] at hwf
    simp only [normL]
    rw [normV_permEquiv O hv hwf.1, normL_permEquiv O ht hwf.2]
/-- Pointwise case of `normV_permEquiv` for mapping values. -/
theorem normO_permEquiv (O : CanonOracle) : ∀ {kvs kvs' : JObj},
    PermEquivObj kvs kvs' → wfKeysO kvs = true → normO O kvs = normO O kvs'
  | _, _, .nil, _ => rfl
  | _, _, .cons k hv ht, hwf => by
    simp only [wfKeysO, Bool.and_eq_true] at hwf
    simp only [normO]
    rw [normV_permEquiv O hv hwf.1, normO_permEquiv O ht hwf.2]
end

/-- C4: for every mapping (a value whose mappings have Python-dict keys,
i.e. pairwise distinct) and every recursive permutation of its entries at
any nesting level, the canonical encodings agree — for every choice of the
host primitives. -/
theorem C4_canon_key_order_insensitivity (O : CanonOracle) (m m' : JVal)
    (hperm : PermEquiv m m') (hwf : wfKeysV m = true) :
    canon O m = canon O m' := by
  cases hperm with
  | null => rfl
  | boolean b => rfl
  | intg n => rfl
  | fNaN => rfl
  | fInf => rfl
  | fNegInf => rfl
  | fNegZero => rfl
  | fFin q => rfl
  | str s => rfl
  | byt bs => rfl
  | arr hl =>
    simp only [canon, canonJson]
    rw [normV_permEquiv O (PermEquiv.arr hl) hwf]
  | obj mid h1 h2 =>
    simp only [canon, canonJson]
    rw [normV_permEquiv O (PermEquiv.obj mid h1 h2) hwf]

/-- C4 (witness): the two concrete mapping presentations canonicalise
identically under the probe oracle. -/
theorem C4_canon_witness : canon probeOracle c4M = canon probeOracle c4M' := by
  refine C4_canon_key_order_insensitivity probeOracle c4M c4M' ?_ (by decide)
  refine PermEquiv.obj
    (JObj.cons "a" (JVal.intg 1)
      (JObj.cons "b"
        (JVal.obj (JObj.cons "d" (JVal.boolean true)
          (JObj.cons "c" JVal.null JObj.nil)))
        JObj.nil))
    ?_ ?_
  · refine PermEquivObj.cons "a" (PermEquiv.intg 1) ?_
    refine PermEquivObj.cons "b" ?_ PermEquivObj.nil
    refine PermEquiv.obj
      (JObj.cons "c" JVal.null
        (JObj.cons "d" (JVal.boolean true) JObj.nil)) ?_ ?_
    · exact PermEquivObj.cons "c" PermEquiv.null
        (PermEquivObj.cons "d" (PermEquiv.boolean true) PermEquivObj.nil)
    · exact List.Perm.swap ("d", JVal.boolean true) ("c", JVal.null) []
  · exact List.Perm.swap
      ("b", JVal.obj (JObj.cons "d" (JVal.boolean true)
        (JObj.cons "c" JVal.null JObj.nil)))
      ("a", JVal.intg 1) []

end Forkline
